import Mathlib

set_option autoImplicit false

/-!
Verification of the configuration subsystem of qutebrowser: the option
schema, the YAML-backed settings persistence (autoconfig.yml), the migration
layer for settings schema evolution, and the config.py entry point.  The
implementation module is not part of the provided sources, so the definitions
below are modelled from the specification, with the unit tests of the repository
fixing the observable behaviour.
-/

namespace Qutebrowser

/-- Modelled from the spec: a YAML value as stored in autoconfig.yml (the
"YAML-backed settings persistence").  Mappings are association lists kept in
insertion order, mirroring Python dict semantics. -/
inductive YValue where
  | null : YValue
  | bool (b : Bool) : YValue
  | str (s : String) : YValue
  | int (n : Int) : YValue
  | list (xs : List YValue) : YValue
  | dict (xs : List (String × YValue)) : YValue

/-- Modelled from the spec: first-match lookup in a Python-dict-like
association list. -/
def dictLookup (k : String) : List (String × YValue) → Option YValue
  | [] => none
  | (k2, v) :: rest => if k2 = k then some v else dictLookup k rest

/-- Modelled from the spec: Python `d[k] = v`, overwriting an existing key in
place and appending a fresh key at the end. -/
def dictSet (k : String) (v : YValue) : List (String × YValue) → List (String × YValue)
  | [] => [(k, v)]
  | (k2, w) :: rest => if k2 = k then (k, v) :: rest else (k2, w) :: dictSet k v rest

/-- Modelled from the spec: Python `del d[k]`. -/
def dictDel (k : String) (d : List (String × YValue)) : List (String × YValue) :=
  d.filter (fun p => p.1 != k)

/-- Modelled from the spec: the keys of a Python-dict-like association list. -/
def dictKeys (d : List (String × YValue)) : List String :=
  d.map Prod.fst

/-- Modelled from the spec: the type of the values of a config option, enough to
express validity of a value for the options involved ("option name → typed
value"). -/
inductive OptType where
  | tBool | tStr | tStrOrNull | tDict | tList

/-- Modelled from the spec: whether a YAML value is a valid value for a given
option type. -/
def typeCheck : OptType → YValue → Bool
  | .tBool, .bool _ => true
  | .tStr, .str _ => true
  | .tStrOrNull, .str _ => true
  | .tStrOrNull, .null => true
  | .tDict, .dict _ => true
  | .tList, .list _ => true
  | _, _ => false

/-- Modelled from the spec: an entry of the option schema (configdata.DATA):
an option name, its value type, and its default value. -/
structure OptionDef where
  name : String
  typ : OptType
  default : YValue

/-- Modelled from the spec: the option schema, restricted to the options the
tests of the repository exercise. -/
def DATA : List OptionDef := [
  ⟨"aliases", .tDict, .dict []⟩,
  ⟨"bindings.commands", .tDict, .dict []⟩,
  ⟨"bindings.default", .tDict, .dict []⟩,
  ⟨"colors.hints.bg", .tStrOrNull, .str "yellow"⟩,
  ⟨"colors.hints.fg", .tStr, .str "black"⟩,
  ⟨"confirm_quit", .tBool, .bool false⟩,
  ⟨"content.images", .tBool, .bool true⟩,
  ⟨"content.javascript.enabled", .tBool, .bool true⟩,
  ⟨"content.user_stylesheets", .tList, .list []⟩,
  ⟨"content.webrtc_ip_handling_policy", .tStr, .str "all-interfaces"⟩,
  ⟨"qt.force_software_rendering", .tStr, .str "none"⟩,
  ⟨"tabs.favicons.show", .tStr, .str "always"⟩,
  ⟨"tabs.mode_on_change", .tStr, .str "normal"⟩,
  ⟨"tabs.show", .tStr, .str "always"⟩,
  ⟨"url.start_pages", .tList, .list [.str "https://start.duckduckgo.com"]⟩]

/-- The names of the known options. -/
def dataNames : List String := DATA.map (fun o => o.name)

/-- The schema entry for a given option name. -/
def lookupOpt (name : String) : Option OptionDef :=
  DATA.find? (fun o => o.name == name)

/-- Modelled from the spec: whether a value is valid for a given option
("typed value"): the option exists and the value matches its type. -/
def accepts (name : String) (v : YValue) : Bool :=
  match lookupOpt name with
  | some o => typeCheck o.typ v
  | none => false

/-- Modelled from the spec: one value, optionally scoped by a URL pattern
(configutils.ScopedValue); `none` is the global scope. -/
structure ScopedValue where
  value : YValue
  pattern : Option String

/-- Modelled from the spec: URL pattern matching for the "per-site scoped
override of a global setting value": a URL matches a pattern when it denotes
the site of the pattern. -/
def urlMatches (p u : String) : Bool := p == u

/-- Modelled from the spec: the list of scoped values stored for one option
(configutils.Values). -/
structure Values where
  opt : OptionDef
  entries : List ScopedValue

/-- Modelled from the spec: add a value for a scope, replacing any existing
value for the same scope (Values.add). -/
def Values.add (vs : Values) (value : YValue) (pattern : Option String) : Values :=
  ⟨vs.opt, vs.entries.filter (fun s => s.pattern != pattern) ++ [⟨value, pattern⟩]⟩

/-- Modelled from the spec: look up the value for a URL: the most recently
added matching pattern wins, then the global value, and only with fallback
enabled the default of the option (Values.get_for_url). -/
def Values.getForUrl (vs : Values) (url : Option String) (fallback : Bool) : Option YValue :=
  let rev := vs.entries.reverse
  let globalHit := rev.find? (fun s => s.pattern.isNone)
  match url with
  | some u =>
    match rev.find? (fun s => match s.pattern with | some p => urlMatches p u | none => false) with
    | some s => some s.value
    | none =>
      if fallback then
        match globalHit with
        | some s => some s.value
        | none => some vs.opt.default
      else none
  | none =>
    match globalHit with
    | some s => some s.value
    | none => if fallback then some vs.opt.default else none

/-- Modelled from the spec: the in-memory typed key-value store with pattern
overlays (config.Config), holding one Values per schema option. -/
structure Config where
  values : List Values

/-- A freshly initialised in-memory config: no value set for any option. -/
def Config.fresh : Config := ⟨DATA.map (fun o => ⟨o, []⟩)⟩

/-- Modelled from the spec: set the value of an option, optionally scoped by a URL
pattern (Config.set_obj). -/
def Config.setObj (cfg : Config) (name : String) (value : YValue)
    (pattern : Option String) : Config :=
  ⟨cfg.values.map (fun vs => if vs.opt.name == name then vs.add value pattern else vs)⟩

/-- Modelled from the spec: get the global value of an option (Config.get_obj),
falling back to the default of the option. -/
def Config.getObj (cfg : Config) (name : String) : Option YValue :=
  match cfg.values.find? (fun vs => vs.opt.name == name) with
  | some vs => vs.getForUrl none true
  | none => none

/-- Modelled from the spec: get the value of an option for a URL (config.get with
a URL argument). -/
def Config.getForUrl (cfg : Config) (name : String) (url : String) : Option YValue :=
  match cfg.values.find? (fun vs => vs.opt.name == name) with
  | some vs => vs.getForUrl (some url) true
  | none => none

/-- Modelled from the spec: config.bind of the config.py API: insert a key
binding for a mode into the bindings.commands option. -/
def Config.bind (cfg : Config) (key command mode : String) : Config :=
  let b := match cfg.getObj "bindings.commands" with
    | some (.dict m) => m
    | _ => []
  let modeDict := match dictLookup mode b with
    | some (.dict mm) => mm
    | _ => []
  cfg.setObj "bindings.commands"
    (.dict (dictSet mode (.dict (dictSet key (.str command) modeDict)) b)) none

/-- Modelled from the spec: config.bind with the mode argument omitted binds
in normal mode. -/
def Config.bindDefault (cfg : Config) (key command : String) : Config :=
  cfg.bind key command "normal"

/-- Modelled from the spec: one entry of a ConfigFileErrors exception
(configexc.ConfigErrorDesc): a context text, the exception message, and an
optional traceback. -/
structure ErrorDesc where
  text : String
  exc : String
  traceback : Option String
deriving DecidableEq

/-- Modelled from the spec: the tables of renamed and deleted options of the
migration layer for settings schema evolution (configdata.MIGRATIONS).  The
tests substitute their own tables, so load is parametrised over them. -/
structure Migrations where
  renamed : List (String × String)
  deleted : List String

/-- Modelled from the spec: the default migration tables of the repository.  The
value-transforming migrations the tests pin down are modelled as dedicated
steps below, so the default tables carry no entries of their own. -/
def MIGRATIONS : Migrations := ⟨[], []⟩

/-- First-match lookup in a renamed-options table. -/
def lookupRenamed (k : String) : List (String × String) → Option String
  | [] => none
  | (k2, v) :: rest => if k2 = k then some v else lookupRenamed k rest

/-- Modelled from the spec: the state of the YAML-backed settings store
(configfiles.YamlConfig): scoped values per option plus a dirty flag telling
whether the file needs rewriting. -/
structure YamlConfig where
  values : List Values
  dirty : Bool

/-- A freshly constructed YamlConfig: every option empty, nothing to save. -/
def YamlConfig.fresh : YamlConfig := ⟨DATA.map (fun o => ⟨o, []⟩), false⟩

/-- Modelled from the spec: YamlConfig.set_obj: record a value for an option,
optionally scoped by a URL pattern, and mark the config changed. -/
def YamlConfig.setObj (st : YamlConfig) (name : String) (value : YValue)
    (pattern : Option String) : YamlConfig :=
  ⟨st.values.map (fun vs => if vs.opt.name == name then vs.add value pattern else vs), true⟩

/-- The stored value of an option, without falling back to the default. -/
def YamlConfig.getObj (st : YamlConfig) (name : String) : Option YValue :=
  match st.values.find? (fun vs => vs.opt.name == name) with
  | some vs => vs.getForUrl none false
  | none => none

/-- Modelled from the spec: an autoconfig.yml on disk: its parsed YAML
toplevel and its modification time. -/
structure YamlFile where
  data : YValue
  mtime : Nat

/-- Modelled from the spec: serialise the scoped values of one option: the global
scope under the key global, a pattern scope under the pattern itself. -/
def serializeValues (vs : Values) : List (String × YValue) :=
  vs.entries.map (fun s => (s.pattern.getD "global", s.value))

/-- The settings entry _save writes for one option: nothing when no value is
stored, the serialised scoped values otherwise. -/
def serEntry (vs : Values) : Option (String × YValue) :=
  if vs.entries.isEmpty then none
  else some (vs.opt.name, YValue.dict (serializeValues vs))

/-- The settings mapping YamlConfig._save writes: every option with at least
one stored value, mapped to its serialised scoped values. -/
def savedSettings (st : YamlConfig) : List (String × YValue) :=
  st.values.filterMap serEntry

/-- Modelled from the spec: YamlConfig._save: leave the filesystem untouched
unless marked dirty, otherwise write config_version 2 and the settings. -/
def YamlConfig.save (st : YamlConfig) (fs : Option YamlFile) (now : Nat) : Option YamlFile :=
  if st.dirty then
    some ⟨.dict [("config_version", .int 2), ("settings", .dict (savedSettings st))], now⟩
  else fs

/-- Modelled from the spec: YamlConfig._pop_object: read a toplevel key,
checking that the toplevel is a mapping and that the key is present. -/
def popObject (data : YValue) (key : String) : Except (List ErrorDesc) YValue :=
  match data with
  | .dict d =>
    match dictLookup key d with
    | some v => .ok v
    | none => .error [⟨"While loading data", "Toplevel object does not contain " ++ key ++ " key", none⟩]
  | _ => .error [⟨"While loading data", "Toplevel object is not a dict", none⟩]

/-- Modelled from the spec: one step of the renamed/deleted-options migration
loop: a renamed key is moved to its new name keeping its value, a deleted key
is dropped; either marks the config changed. -/
def migrateStep (mig : Migrations) (acc : List (String × YValue) × Bool) (name : String) :
    List (String × YValue) × Bool :=
  match lookupRenamed name mig.renamed with
  | some newName =>
    match dictLookup name acc.1 with
    | some v => (dictDel name (dictSet newName v acc.1), true)
    | none => acc
  | none =>
    if mig.deleted.contains name then
      match dictLookup name acc.1 with
      | some _ => (dictDel name acc.1, true)
      | none => acc
    else acc

/-- Modelled from the spec: Python truthiness of a YAML value. -/
def yTruthy : YValue → Bool
  | .null => false
  | .bool b => b
  | .str s => !(s == "")
  | .int n => !(n == 0)
  | .list xs => !xs.isEmpty
  | .dict xs => !xs.isEmpty

/-- Modelled from the spec: migrate tabs.persist_mode_on_change to
tabs.mode_on_change, turning truthy scoped values into persist and falsy ones
into normal. -/
def migratePersist (acc : List (String × YValue) × Bool) : List (String × YValue) × Bool :=
  match dictLookup "tabs.persist_mode_on_change" acc.1 with
  | some (.dict scopes) =>
    let scopes2 := scopes.map (fun p => (p.1, YValue.str (if yTruthy p.2 then "persist" else "normal")))
    (dictDel "tabs.persist_mode_on_change"
      (dictSet "tabs.mode_on_change" (.dict scopes2) acc.1), true)
  | _ => acc

/-- Modelled from the spec: bindings.default cannot be stored in
autoconfig.yml, so it is dropped on load. -/
def migrateBindingsDefault (acc : List (String × YValue) × Bool) : List (String × YValue) × Bool :=
  match dictLookup "bindings.default" acc.1 with
  | some _ => (dictDel "bindings.default" acc.1, true)
  | none => acc

/-- Modelled from the spec: migrate content.webrtc_public_interfaces_only to
content.webrtc_ip_handling_policy, keeping the scoped values. -/
def migrateWebrtcRename (acc : List (String × YValue) × Bool) : List (String × YValue) × Bool :=
  match dictLookup "content.webrtc_public_interfaces_only" acc.1 with
  | some v => (dictDel "content.webrtc_public_interfaces_only"
      (dictSet "content.webrtc_ip_handling_policy" v acc.1), true)
  | none => acc

/-- Modelled from the spec: rewrite boolean scoped values of one option to
the given replacement strings (YamlConfig._migrate_bool). -/
def migrateBool (name trueVal falseVal : String) (acc : List (String × YValue) × Bool) :
    List (String × YValue) × Bool :=
  match dictLookup name acc.1 with
  | some (.dict scopes) =>
    let hit := scopes.any (fun p => match p.2 with | .bool _ => true | _ => false)
    let scopes2 := scopes.map (fun p => match p.2 with
      | .bool b => (p.1, YValue.str (if b then trueVal else falseVal))
      | _ => p)
    if hit then (dictSet name (.dict scopes2) acc.1, true) else acc
  | _ => acc

/-- Modelled from the spec: YamlConfig._handle_migrations: the renamed and
deleted tables over a snapshot of the keys, then the dedicated
value-transforming migrations; the second component tells whether anything
changed. -/
def handleMigrations (mig : Migrations) (settings : List (String × YValue)) :
    List (String × YValue) × Bool :=
  migrateBool "qt.force_software_rendering" "software-opengl" "none"
    (migrateBool "tabs.favicons.show" "always" "never"
      (migrateBool "content.webrtc_ip_handling_policy"
          "default-public-interface-only" "all-interfaces"
        (migrateWebrtcRename
          (migrateBindingsDefault
            (migratePersist
              ((dictKeys settings).foldl (migrateStep mig) (settings, false)))))))

/-- Modelled from the spec: YamlConfig._validate: every setting name left
after migration must be a known option; one error per unknown name. -/
def validate (settings : List (String × YValue)) : List ErrorDesc :=
  ((dictKeys settings).filter (fun n => !(dataNames.contains n))).map
    (fun n => ⟨"While loading options", "Unknown option " ++ n, none⟩)

/-- Modelled from the spec: build the Values of one option from its scoped
mapping: the global value first, then each pattern value in file order. -/
def buildOptionValues (opt : OptionDef) (scopes : List (String × YValue)) : Values :=
  let vs : Values := ⟨opt, []⟩
  let vs := match dictLookup "global" scopes with
    | some g => vs.add g none
    | none => vs
  (dictDel "global" scopes).foldl (fun acc p => acc.add p.2 (some p.1)) vs

/-- The effect of one settings entry on the Values of a single option: the entry
for the name of this option replaces the stored values wholesale. -/
def buildStep (vs : Values) (p : String × YValue) : Values :=
  match p.2 with
  | .dict scopes => if vs.opt.name == p.1 then buildOptionValues vs.opt scopes else vs
  | _ => vs

/-- One pass of YamlConfig._build_values over the Values of a single option. -/
def buildOne (settings : List (String × YValue)) (vs : Values) : Values :=
  settings.foldl buildStep vs

/-- Modelled from the spec: YamlConfig._build_values: install the
scoped values over the fresh per-option store, collecting an error for every
setting whose value is not a mapping. -/
def buildValues (settings : List (String × YValue)) : Except (List ErrorDesc) (List Values) :=
  let errs := settings.filterMap (fun p => match p.2 with
    | .dict _ => none
    | _ => some (⟨"While parsing " ++ p.1, "value is not a dict", none⟩ : ErrorDesc))
  if errs.isEmpty then
    .ok ((DATA.map (fun o => (⟨o, []⟩ : Values))).map (buildOne settings))
  else .error errs

/-- Modelled from the spec: the tail of YamlConfig.load: run the migrations,
validate the option names, build the values; the config is dirty when it was
loaded from the legacy format or a migration changed something. -/
def finishLoad (mig : Migrations) (settings : List (String × YValue)) (legacyDirty : Bool) :
    Except (List ErrorDesc) YamlConfig :=
  if (validate (handleMigrations mig settings).1).isEmpty then
    match buildValues (handleMigrations mig settings).1 with
    | .ok vals => .ok ⟨vals, legacyDirty || (handleMigrations mig settings).2⟩
    | .error e => .error e
  else .error (validate (handleMigrations mig settings).1)

/-- Modelled from the spec: YamlConfig.load: a missing file yields a fresh
state; config_version 1 reads the legacy toplevel global mapping and marks
the config changed; a version above 2 is refused; otherwise the settings
mapping is read, migrated, validated and installed. -/
def YamlConfig.load (mig : Migrations) (fs : Option YamlFile) :
    Except (List ErrorDesc) YamlConfig :=
  match fs with
  | none => .ok YamlConfig.fresh
  | some file =>
    match popObject file.data "config_version" with
    | .error e => .error e
    | .ok vRaw =>
      match vRaw with
      | .int version =>
        if version == 1 then
          match popObject file.data "global" with
          | .error e => .error e
          | .ok gRaw =>
            match gRaw with
            | .dict g =>
              finishLoad mig (g.map (fun p => (p.1, YValue.dict [("global", p.2)]))) true
            | _ => .error [⟨"While loading data", "global object is not a dict", none⟩]
        else if 2 < version then
          .error [⟨"While reading", "Can\x27t read config from incompatible newer version", none⟩]
        else
          match popObject file.data "settings" with
          | .error e => .error e
          | .ok sRaw =>
            match sRaw with
            | .dict s => finishLoad mig s false
            | _ => .error [⟨"While loading data", "settings object is not a dict", none⟩]
      | _ => .error [⟨"While loading data", "config_version object is not an int", none⟩]

/-- Modelled from the spec: the statements of a config.py, abstracted to
their error behaviour: succeed, raise a recoverable setting error which the
config API turns into an error entry, or raise an unhandled exception. -/
inductive PyStatement where
  | ok : PyStatement
  | settingError (text msg : String) : PyStatement
  | unhandled (msg traceback : String) : PyStatement

/-- Whether the failure of a statement is caught and recorded by the config API
rather than aborting the execution of the file. -/
def isRecoverable : PyStatement → Bool
  | .unhandled _ _ => false
  | _ => true

/-- The error entry a statement contributes, if any: setting errors carry no
traceback, an unhandled exception carries one. -/
def descOfStatement : PyStatement → Option ErrorDesc
  | .ok => none
  | .settingError t m => some ⟨t, m, none⟩
  | .unhandled m tb => some ⟨"Unhandled exception", m, some tb⟩

/-- Modelled from the spec: error collection of read_config_py: statements
run in order, recoverable setting errors are recorded and execution
continues, an unhandled exception is recorded and stops execution. -/
def collectErrors : List PyStatement → List ErrorDesc
  | [] => []
  | .ok :: rest => collectErrors rest
  | .settingError t m :: rest => ⟨t, m, none⟩ :: collectErrors rest
  | .unhandled m tb :: _ => [⟨"Unhandled exception", m, some tb⟩]

/-- Modelled from the spec: read_config_py (config.py, the Python-scriptable
configuration entry point): execute the statements, and raise one
ConfigFileErrors with every collected entry when any error occurred. -/
def readConfigPy (stmts : List PyStatement) : Except (List ErrorDesc) Unit :=
  let errs := collectErrors stmts
  if errs.isEmpty then .ok () else .error errs

/-! ### Helper lemmas about the dict operations -/

theorem dictLookup_eq_none_of_forall {d : List (String × YValue)} {k : String}
    (h : ∀ p ∈ d, p.1 ≠ k) : dictLookup k d = none := by
  induction d with
  | nil => rfl
  | cons p rest ih =>
    simp only [dictLookup]
    rw [if_neg (h p (by simp))]
    exact ih (fun q hq => h q (by simp [hq]))

theorem forall_ne_of_dictLookup_eq_none {d : List (String × YValue)} {k : String}
    (h : dictLookup k d = none) : ∀ p ∈ d, p.1 ≠ k := by
  induction d with
  | nil => simp
  | cons p rest ih =>
    simp only [dictLookup] at h
    split at h
    · exact absurd h (by simp)
    · intro q hq
      rcases List.mem_cons.mp hq with rfl | hq2
      · simpa using (by assumption : ¬ q.1 = k)
      · exact ih h q hq2

theorem dictLookup_append_left {d1 d2 : List (String × YValue)} {k : String} {v : YValue}
    (h : dictLookup k d1 = some v) : dictLookup k (d1 ++ d2) = some v := by
  induction d1 with
  | nil => simp [dictLookup] at h
  | cons p rest ih =>
    simp only [dictLookup, List.cons_append] at h ⊢
    split at h <;> simp_all [dictLookup]

theorem dictLookup_append_right {d1 d2 : List (String × YValue)} {k : String}
    (h : ∀ p ∈ d1, p.1 ≠ k) : dictLookup k (d1 ++ d2) = dictLookup k d2 := by
  induction d1 with
  | nil => rfl
  | cons p rest ih =>
    simp only [List.cons_append, dictLookup]
    rw [if_neg (h p (by simp))]
    exact ih (fun q hq => h q (by simp [hq]))

theorem dictSet_of_not_mem {d : List (String × YValue)} {k : String} (v : YValue)
    (h : ∀ p ∈ d, p.1 ≠ k) : dictSet k v d = d ++ [(k, v)] := by
  induction d with
  | nil => rfl
  | cons p rest ih =>
    simp only [dictSet, List.cons_append]
    rw [if_neg (h p (by simp))]
    rw [ih (fun q hq => h q (by simp [hq]))]

theorem dictDel_of_not_mem {d : List (String × YValue)} {k : String}
    (h : ∀ p ∈ d, p.1 ≠ k) : dictDel k d = d := by
  unfold dictDel
  apply List.filter_eq_self.mpr
  intro p hp
  simpa using h p hp

theorem dictLookup_dictDel_self (d : List (String × YValue)) (k : String) :
    dictLookup k (dictDel k d) = none := by
  apply dictLookup_eq_none_of_forall
  intro p hp
  have := List.of_mem_filter hp
  simpa using this

theorem dictLookup_dictDel_other {d : List (String × YValue)} {k k2 : String}
    (h : k2 ≠ k) : dictLookup k2 (dictDel k d) = dictLookup k2 d := by
  induction d with
  | nil => rfl
  | cons p rest ih =>
    by_cases hp : p.1 = k
    · have : (p.1 != k) = false := by simp [hp]
      simp only [dictDel, List.filter] at ih ⊢
      rw [this]
      simp only [dictLookup]
      rw [if_neg (by rw [hp]; exact fun hh => h hh.symm)]
      exact ih
    · have : (p.1 != k) = true := by simp [hp]
      simp only [dictDel, List.filter] at ih ⊢
      rw [this]
      simp only [dictLookup]
      split <;> simp_all

theorem mem_of_mem_dictDel {d : List (String × YValue)} {k : String} {p : String × YValue}
    (h : p ∈ dictDel k d) : p ∈ d :=
  List.mem_of_mem_filter h

theorem dictKeys_append (d1 d2 : List (String × YValue)) :
    dictKeys (d1 ++ d2) = dictKeys d1 ++ dictKeys d2 := by
  simp [dictKeys]

theorem dictKeys_dictDel (d : List (String × YValue)) (k : String) :
    dictKeys (dictDel k d) = (dictKeys d).filter (fun x => x != k) := by
  unfold dictKeys dictDel
  induction d with
  | nil => rfl
  | cons p rest ih =>
    simp only [List.filter, List.map]
    rcases hb : (p.1 != k) with _ | _ <;> simp [hb, ih]

/-! ### Helper lemmas about the migration steps -/

/-- The names the dedicated migration steps inspect. -/
def specialNames : List String :=
  ["tabs.persist_mode_on_change", "bindings.default",
   "content.webrtc_public_interfaces_only", "content.webrtc_ip_handling_policy",
   "tabs.favicons.show", "qt.force_software_rendering"]

/-- A key no migration touches: neither renamed nor deleted by the tables,
and none of the names the dedicated migration steps inspect. -/
def benignKey (mig : Migrations) (k : String) : Bool :=
  (lookupRenamed k mig.renamed).isNone && !(mig.deleted.contains k)
    && !(specialNames.contains k)

/-- A settings entry the whole load pipeline passes through unchanged: a
benign key that is a known option, whose value is a scoped mapping with
distinct scopes. -/
def benignEntry (mig : Migrations) (p : String × YValue) : Prop :=
  benignKey mig p.1 = true ∧ dataNames.contains p.1 = true ∧
    ∃ scopes, p.2 = YValue.dict scopes ∧ (dictKeys scopes).Nodup

theorem migrateStep_benign {mig : Migrations} {k : String}
    (h1 : lookupRenamed k mig.renamed = none) (h2 : mig.deleted.contains k = false)
    (acc : List (String × YValue) × Bool) : migrateStep mig acc k = acc := by
  simp only [migrateStep, h1, h2]
  rfl

theorem foldl_migrateStep_benign {mig : Migrations} {ks : List String}
    (h : ∀ k ∈ ks, lookupRenamed k mig.renamed = none ∧ mig.deleted.contains k = false)
    (acc : List (String × YValue) × Bool) :
    ks.foldl (migrateStep mig) acc = acc := by
  induction ks generalizing acc with
  | nil => rfl
  | cons k ks ih =>
    rw [List.foldl_cons,
      migrateStep_benign (h k (by simp)).1 (h k (by simp)).2,
      ih (fun q hq => h q (by simp [hq]))]

theorem migratePersist_of_none {acc : List (String × YValue) × Bool}
    (h : dictLookup "tabs.persist_mode_on_change" acc.1 = none) :
    migratePersist acc = acc := by
  simp [migratePersist, h]

theorem migrateBindingsDefault_of_none {acc : List (String × YValue) × Bool}
    (h : dictLookup "bindings.default" acc.1 = none) :
    migrateBindingsDefault acc = acc := by
  simp [migrateBindingsDefault, h]

theorem migrateWebrtcRename_of_none {acc : List (String × YValue) × Bool}
    (h : dictLookup "content.webrtc_public_interfaces_only" acc.1 = none) :
    migrateWebrtcRename acc = acc := by
  simp [migrateWebrtcRename, h]

theorem migrateBool_of_none {name trueVal falseVal : String}
    {acc : List (String × YValue) × Bool}
    (h : dictLookup name acc.1 = none) :
    migrateBool name trueVal falseVal acc = acc := by
  simp [migrateBool, h]

theorem benignKey_spec {mig : Migrations} {k : String} (h : benignKey mig k = true) :
    lookupRenamed k mig.renamed = none ∧ mig.deleted.contains k = false ∧
      specialNames.contains k = false := by
  simp only [benignKey, Bool.and_eq_true, Bool.not_eq_true', Option.isNone_iff_eq_none] at h
  exact ⟨h.1.1, h.1.2, h.2⟩

/-- Keys that are all benign exclude every special migration name. -/
theorem dictLookup_specials_none {mig : Migrations} {d : List (String × YValue)}
    (h : ∀ k ∈ dictKeys d, benignKey mig k = true) :
    ∀ n ∈ specialNames, dictLookup n d = none := by
  intro n hn
  apply dictLookup_eq_none_of_forall
  intro p hp heq
  have hs := (benignKey_spec (h p.1 (List.mem_map_of_mem Prod.fst hp))).2.2
  rw [heq] at hs
  rw [show specialNames.contains n = List.elem n specialNames from rfl,
    List.elem_eq_true_of_mem hn] at hs
  exact Bool.true_eq_false.mp hs

/-- The dedicated migration steps leave a mapping alone that holds none of
the special names. -/
theorem specialSteps_benign {e : List (String × YValue)} {ch : Bool}
    (hnone : ∀ n ∈ specialNames, dictLookup n e = none) :
    migrateBool "qt.force_software_rendering" "software-opengl" "none"
      (migrateBool "tabs.favicons.show" "always" "never"
        (migrateBool "content.webrtc_ip_handling_policy"
            "default-public-interface-only" "all-interfaces"
          (migrateWebrtcRename (migrateBindingsDefault (migratePersist (e, ch))))))
      = (e, ch) := by
  rw [migratePersist_of_none
      (hnone "tabs.persist_mode_on_change" (by simp [specialNames])),
    migrateBindingsDefault_of_none
      (hnone "bindings.default" (by simp [specialNames])),
    migrateWebrtcRename_of_none
      (hnone "content.webrtc_public_interfaces_only" (by simp [specialNames])),
    @migrateBool_of_none "content.webrtc_ip_handling_policy"
      "default-public-interface-only" "all-interfaces" (e, ch)
      (hnone "content.webrtc_ip_handling_policy" (by simp [specialNames])),
    @migrateBool_of_none "tabs.favicons.show" "always" "never" (e, ch)
      (hnone "tabs.favicons.show" (by simp [specialNames])),
    @migrateBool_of_none "qt.force_software_rendering" "software-opengl" "none" (e, ch)
      (hnone "qt.force_software_rendering" (by simp [specialNames]))]

/-- The migration layer leaves a mapping alone all of whose keys are benign,
and reports no change. -/
theorem handleMigrations_benign {mig : Migrations} {d : List (String × YValue)}
    (h : ∀ k ∈ dictKeys d, benignKey mig k = true) :
    handleMigrations mig d = (d, false) := by
  have hb : ∀ k ∈ dictKeys d,
      lookupRenamed k mig.renamed = none ∧ mig.deleted.contains k = false :=
    fun k hk => ⟨(benignKey_spec (h k hk)).1, (benignKey_spec (h k hk)).2.1⟩
  unfold handleMigrations
  rw [foldl_migrateStep_benign hb]
  exact specialSteps_benign (dictLookup_specials_none h)

/-! ### Helper lemmas about validation and value building -/

theorem validate_eq_nil {d : List (String × YValue)}
    (h : ∀ k ∈ dictKeys d, dataNames.contains k = true) : validate d = [] := by
  unfold validate
  rw [List.filter_eq_nil_iff.mpr
    (fun k hk => by simp only [h k hk, Bool.not_true]; exact Bool.false_ne_true)]
  rfl

theorem buildValues_ok {d : List (String × YValue)}
    (h : ∀ p ∈ d, ∃ scopes, p.2 = YValue.dict scopes) :
    buildValues d = .ok ((DATA.map (fun o => (⟨o, []⟩ : Values))).map (buildOne d)) := by
  unfold buildValues
  rw [show (d.filterMap (fun p => match p.2 with
    | .dict _ => none
    | _ => some (⟨"While parsing " ++ p.1, "value is not a dict", none⟩ : ErrorDesc))) = [] from ?_]
  · rfl
  · apply List.filterMap_eq_nil_iff.mpr
    intro p hp
    obtain ⟨scopes, hs⟩ := h p hp
    rw [hs]

theorem Values.add_opt (vs : Values) (v : YValue) (p : Option String) :
    (vs.add v p).opt = vs.opt := rfl

theorem foldl_add_opt (ps : List (String × YValue)) (vs : Values) :
    (ps.foldl (fun acc p => acc.add p.2 (some p.1)) vs).opt = vs.opt := by
  induction ps generalizing vs with
  | nil => rfl
  | cons q ps ih => rw [List.foldl_cons, ih, Values.add_opt]

theorem buildOptionValues_opt (opt : OptionDef) (scopes : List (String × YValue)) :
    (buildOptionValues opt scopes).opt = opt := by
  unfold buildOptionValues
  cases hg : dictLookup "global" scopes <;> simp only [hg] <;> rw [foldl_add_opt] <;> rfl

theorem buildStep_opt (vs : Values) (p : String × YValue) :
    (buildStep vs p).opt = vs.opt := by
  rcases p with ⟨k, v⟩
  cases v <;> simp only [buildStep]
  split
  · exact buildOptionValues_opt _ _
  · rfl

theorem buildOne_opt (d : List (String × YValue)) (vs : Values) :
    (buildOne d vs).opt = vs.opt := by
  unfold buildOne
  induction d generalizing vs with
  | nil => rfl
  | cons p d ih => rw [List.foldl_cons, ih, buildStep_opt]

theorem buildStep_skip {vs : Values} {p : String × YValue}
    (h : p.1 ≠ vs.opt.name) : buildStep vs p = vs := by
  rcases p with ⟨k, v⟩
  have hne : ¬ (vs.opt.name == k) = true := by
    simp only [beq_iff_eq]
    exact fun he => h he.symm
  cases v <;> simp only [buildStep] <;> first | rfl | rw [if_neg hne]

theorem buildOne_of_not_mem {d : List (String × YValue)} {vs : Values}
    (h : ∀ p ∈ d, p.1 ≠ vs.opt.name) : buildOne d vs = vs := by
  unfold buildOne
  induction d with
  | nil => rfl
  | cons p d ih =>
    rw [List.foldl_cons, buildStep_skip (h p (by simp))]
    exact ih (fun q hq => h q (by simp [hq]))

theorem buildStep_hit {vs : Values} {n : String} {scopes : List (String × YValue)}
    (h : vs.opt.name = n) :
    buildStep vs (n, YValue.dict scopes) = buildOptionValues vs.opt scopes := by
  simp only [buildStep]
  rw [if_pos (by simp [h])]

theorem buildOne_split {d1 d2 : List (String × YValue)} {n : String}
    {scopes : List (String × YValue)} {vs : Values}
    (h1 : ∀ p ∈ d1, p.1 ≠ n) (h2 : ∀ p ∈ d2, p.1 ≠ n) (hn : vs.opt.name = n) :
    buildOne (d1 ++ (n, YValue.dict scopes) :: d2) vs = buildOptionValues vs.opt scopes := by
  show (d1 ++ (n, YValue.dict scopes) :: d2).foldl buildStep vs = _
  rw [List.foldl_append, List.foldl_cons]
  rw [show d1.foldl buildStep vs = vs from buildOne_of_not_mem (fun p hp => hn ▸ h1 p hp)]
  rw [buildStep_hit hn]
  have : ∀ p ∈ d2, p.1 ≠ (buildOptionValues vs.opt scopes).opt.name := by
    intro p hp
    rw [buildOptionValues_opt, hn]
    exact h2 p hp
  exact buildOne_of_not_mem this

/-- Look up the stored Values of an option by name. -/
def findVals (l : List Values) (n : String) : Option Values :=
  l.find? (fun vs => vs.opt.name == n)

theorem findVals_map_buildOne (d : List (String × YValue)) (l : List Values) (n : String) :
    findVals (l.map (buildOne d)) n = Option.map (buildOne d) (findVals l n) := by
  unfold findVals
  rw [List.find?_map]
  have : ((fun vs => vs.opt.name == n) ∘ buildOne d) = (fun vs => vs.opt.name == n) := by
    funext vs
    simp [Function.comp, buildOne_opt]
  rw [this]

theorem findVals_init (n : String) :
    findVals (DATA.map (fun o => (⟨o, []⟩ : Values))) n
      = Option.map (fun o => (⟨o, []⟩ : Values)) (lookupOpt n) := by
  unfold findVals lookupOpt
  rw [List.find?_map]
  rfl

theorem dictLookup_filterMap_serEntry_none {l : List Values} {n : String}
    (h : ∀ vs ∈ l, vs.opt.name ≠ n) : dictLookup n (l.filterMap serEntry) = none := by
  apply dictLookup_eq_none_of_forall
  intro p hp
  obtain ⟨vs, hvs, hser⟩ := List.mem_filterMap.mp hp
  unfold serEntry at hser
  split at hser
  · exact absurd hser (by simp)
  · have := Option.some_injective _ hser
    rw [← this]
    exact h vs hvs

theorem dictLookup_filterMap_serEntry {l : List Values} {n : String}
    (hp : l.Pairwise (fun a b => a.opt.name ≠ b.opt.name)) :
    dictLookup n (l.filterMap serEntry) =
      (match findVals l n with
       | some vs => if vs.entries.isEmpty then none
           else some (YValue.dict (serializeValues vs))
       | none => none) := by
  induction l with
  | nil => rfl
  | cons vs l ih =>
    have hhead : ∀ b ∈ l, vs.opt.name ≠ b.opt.name := (List.pairwise_cons.mp hp).1
    have htail := (List.pairwise_cons.mp hp).2
    by_cases hn : vs.opt.name = n
    · have hfind : findVals (vs :: l) n = some vs := by
        unfold findVals
        rw [List.find?_cons_of_pos _ (by simp [hn])]
      rw [hfind]
      cases hE : vs.entries.isEmpty
      · rw [List.filterMap_cons_some (show serEntry vs = some (vs.opt.name, YValue.dict (serializeValues vs)) from by simp [serEntry, hE])]
        rw [show dictLookup n ((vs.opt.name, YValue.dict (serializeValues vs))
            :: l.filterMap serEntry) = some (YValue.dict (serializeValues vs)) from by
          simp [dictLookup, hn]]
        simp [hE]
      · rw [List.filterMap_cons_none (by simp [serEntry, hE])]
        rw [dictLookup_filterMap_serEntry_none
          (fun b hb => by rw [← hn]; exact (hhead b hb).symm)]
        simp [hE]
    · have hfind : findVals (vs :: l) n = findVals l n := by
        unfold findVals
        rw [List.find?_cons_of_neg _ (by simp [hn])]
      rw [hfind]
      cases hE : vs.entries.isEmpty
      · rw [List.filterMap_cons_some (show serEntry vs = some (vs.opt.name, YValue.dict (serializeValues vs)) from by simp [serEntry, hE])]
        rw [show dictLookup n ((vs.opt.name, YValue.dict (serializeValues vs))
            :: l.filterMap serEntry) = dictLookup n (l.filterMap serEntry) from by
          simp [dictLookup, hn]]
        exact ih htail
      · rw [List.filterMap_cons_none (by simp [serEntry, hE])]
        exact ih htail

theorem pairwise_names_DATA :
    DATA.Pairwise (fun a b : OptionDef => a.name ≠ b.name) := by
  rw [← List.pairwise_map (f := fun o : OptionDef => o.name)]
  have : (DATA.map (fun o : OptionDef => o.name)).Nodup := by decide
  exact this

/-- The values list YamlConfig._build_values produces for a settings
mapping. -/
def builtState (d : List (String × YValue)) : List Values :=
  (DATA.map (fun o => (⟨o, []⟩ : Values))).map (buildOne d)

theorem pairwise_names_builtState (d : List (String × YValue)) :
    (builtState d).Pairwise (fun a b : Values => a.opt.name ≠ b.opt.name) := by
  unfold builtState
  rw [List.pairwise_map, List.pairwise_map]
  apply List.Pairwise.imp _ pairwise_names_DATA
  intro a b hab
  rw [buildOne_opt, buildOne_opt]
  exact hab

theorem findVals_builtState (d : List (String × YValue)) (n : String) :
    findVals (builtState d) n
      = Option.map (fun o => buildOne d ⟨o, []⟩) (lookupOpt n) := by
  unfold builtState
  rw [findVals_map_buildOne, findVals_init]
  cases lookupOpt n <;> rfl

/-- What the saved settings mapping holds for an option name, in terms of the
values built for that option. -/
theorem dictLookup_savedSettings (d : List (String × YValue)) (dirty : Bool) (n : String) :
    dictLookup n (savedSettings ⟨builtState d, dirty⟩) =
      (match lookupOpt n with
       | some o =>
         if (buildOne d ⟨o, []⟩).entries.isEmpty then none
         else some (YValue.dict (serializeValues (buildOne d ⟨o, []⟩)))
       | none => none) := by
  show dictLookup n ((builtState d).filterMap serEntry) = _
  rw [dictLookup_filterMap_serEntry (pairwise_names_builtState d)]
  rw [findVals_builtState]
  cases lookupOpt n <;> rfl

/-! ### Helper lemmas about serialising built values -/

theorem foldl_add_entries (ps : List (String × YValue)) (vs : Values)
    (hdisj : ∀ s ∈ vs.entries, ∀ q ∈ ps, s.pattern ≠ some q.1)
    (hnd : (ps.map Prod.fst).Nodup) :
    (ps.foldl (fun acc p => acc.add p.2 (some p.1)) vs).entries
      = vs.entries ++ ps.map (fun p => (⟨p.2, some p.1⟩ : ScopedValue)) := by
  induction ps generalizing vs with
  | nil => simp
  | cons q ps ih =>
    rw [List.foldl_cons]
    have hfilter : vs.entries.filter (fun s => s.pattern != some q.1) = vs.entries := by
      apply List.filter_eq_self.mpr
      intro s hs
      simpa using hdisj s hs q (by simp)
    have hstep : (vs.add q.2 (some q.1)).entries
        = vs.entries ++ [(⟨q.2, some q.1⟩ : ScopedValue)] := by
      show vs.entries.filter (fun s => s.pattern != some q.1) ++ _ = _
      rw [hfilter]
    have hnd2 : (ps.map Prod.fst).Nodup := (List.nodup_cons.mp hnd).2
    have hq1 : q.1 ∉ ps.map Prod.fst := (List.nodup_cons.mp hnd).1
    rw [ih (vs.add q.2 (some q.1)) ?_ hnd2, hstep]
    · simp
    · intro s hs r hr
      rw [hstep] at hs
      rcases List.mem_append.mp hs with hs1 | hs2
      · exact hdisj s hs1 r (by simp [hr])
      · have : s = (⟨q.2, some q.1⟩ : ScopedValue) := by simpa using hs2
        rw [this]
        intro hcon
        apply hq1
        have : q.1 = r.1 := by simpa using hcon
        rw [this]
        exact List.mem_map_of_mem Prod.fst hr

theorem buildOptionValues_entries (opt : OptionDef) (scopes : List (String × YValue))
    (hnd : (dictKeys scopes).Nodup) :
    (buildOptionValues opt scopes).entries
      = (match dictLookup "global" scopes with
         | some g => [(⟨g, none⟩ : ScopedValue)]
         | none => [])
        ++ (dictDel "global" scopes).map (fun p => (⟨p.2, some p.1⟩ : ScopedValue)) := by
  have hndDel : ((dictDel "global" scopes).map Prod.fst).Nodup := by
    rw [show (dictDel "global" scopes).map Prod.fst = dictKeys (dictDel "global" scopes) from rfl,
      dictKeys_dictDel]
    exact List.Nodup.filter _ hnd
  unfold buildOptionValues
  cases hg : dictLookup "global" scopes <;> simp only [hg]
  · rw [foldl_add_entries _ _ (by simp) hndDel]
  · rw [foldl_add_entries _ _ ?_ hndDel]
    · rfl
    · intro s hs q hq
      have hsp : s.pattern = none := by
        simp only [Values.add, List.filter_nil, List.nil_append,
          List.mem_singleton] at hs
        rw [hs]
      rw [hsp]
      simp

theorem buildOptionValues_entries_ne_nil (opt : OptionDef)
    {scopes : List (String × YValue)} (hne : scopes ≠ [])
    (hnd : (dictKeys scopes).Nodup) :
    (buildOptionValues opt scopes).entries ≠ [] := by
  rw [buildOptionValues_entries opt scopes hnd]
  cases hg : dictLookup "global" scopes
  · have hall : ∀ p ∈ scopes, p.1 ≠ "global" := forall_ne_of_dictLookup_eq_none hg
    rw [dictDel_of_not_mem hall]
    simp only [List.nil_append]
    intro hcon
    exact hne (List.map_eq_nil.mp hcon)
  · simp

/-- Serialising the values built from a scoped mapping restores the mapping,
up to reordering: every scope looks up to the same value. -/
theorem dictLookup_serialize_buildOptionValues (opt : OptionDef)
    (scopes : List (String × YValue)) (hnd : (dictKeys scopes).Nodup)
    (scope : String) :
    dictLookup scope (serializeValues (buildOptionValues opt scopes))
      = dictLookup scope scopes := by
  have hser : serializeValues (buildOptionValues opt scopes)
      = (match dictLookup "global" scopes with
         | some g => [("global", g)]
         | none => []) ++ dictDel "global" scopes := by
    unfold serializeValues
    rw [buildOptionValues_entries opt scopes hnd]
    rw [List.map_append, List.map_map]
    have h2 : (dictDel "global" scopes).map
        ((fun s : ScopedValue => (s.pattern.getD "global", s.value))
          ∘ (fun p : String × YValue => (⟨p.2, some p.1⟩ : ScopedValue)))
        = dictDel "global" scopes := by
      have hfi : ((fun s : ScopedValue => (s.pattern.getD "global", s.value))
          ∘ (fun p : String × YValue => (⟨p.2, some p.1⟩ : ScopedValue)))
          = id := funext fun p => rfl
      rw [hfi, List.map_id]
    rw [h2]
    cases dictLookup "global" scopes <;> rfl
  rw [hser]
  by_cases hsc : scope = "global"
  · subst hsc
    cases hg : dictLookup "global" scopes
    · simp only [List.nil_append]
      exact dictLookup_dictDel_self scopes "global"
    · rw [List.singleton_append]
      simp [dictLookup]
  · cases hg : dictLookup "global" scopes
    · simp only [List.nil_append]
      exact dictLookup_dictDel_other hsc
    · rw [List.singleton_append]
      show dictLookup scope (("global", _) :: dictDel "global" scopes) = _
      simp only [dictLookup]
      rw [if_neg (fun he => hsc he.symm), dictLookup_dictDel_other hsc]

/-! ### Load pipeline assembly lemmas -/

theorem finishLoad_eq_ok {mig : Migrations} {d d2 : List (String × YValue)}
    {changed : Bool} (legacyDirty : Bool)
    (hm : handleMigrations mig d = (d2, changed))
    (hknown : ∀ k ∈ dictKeys d2, dataNames.contains k = true)
    (hdicts : ∀ p ∈ d2, ∃ scopes, p.2 = YValue.dict scopes) :
    finishLoad mig d legacyDirty = .ok ⟨builtState d2, legacyDirty || changed⟩ := by
  unfold finishLoad
  rw [hm]
  rw [show validate (d2, changed).1 = [] from validate_eq_nil hknown]
  rw [show buildValues (d2, changed).1
    = .ok ((DATA.map (fun o => (⟨o, []⟩ : Values))).map (buildOne d2)) from
    buildValues_ok hdicts]
  rfl

theorem load_version2 {mig : Migrations} {tl d : List (String × YValue)} {mt : Nat}
    (hv : dictLookup "config_version" tl = some (.int 2))
    (hs : dictLookup "settings" tl = some (.dict d)) :
    YamlConfig.load mig (some ⟨.dict tl, mt⟩) = finishLoad mig d false := by
  simp only [YamlConfig.load, popObject, hv, hs]
  norm_num

theorem load_version1 {mig : Migrations} {tl g : List (String × YValue)} {mt : Nat}
    (hv : dictLookup "config_version" tl = some (.int 1))
    (hg : dictLookup "global" tl = some (.dict g)) :
    YamlConfig.load mig (some ⟨.dict tl, mt⟩)
      = finishLoad mig (g.map (fun p => (p.1, YValue.dict [("global", p.2)]))) true := by
  simp only [YamlConfig.load, popObject, hv, hg]
  norm_num

theorem save_dirty (vals : List Values) (fs : Option YamlFile) (now : Nat) :
    YamlConfig.save ⟨vals, true⟩ fs now
      = some ⟨.dict [("config_version", .int 2),
          ("settings", .dict (savedSettings ⟨vals, true⟩))], now⟩ := rfl

theorem save_clean (vals : List Values) (fs : Option YamlFile) (now : Nat) :
    YamlConfig.save ⟨vals, false⟩ fs now = fs := rfl

/-- Whether a YAML value is a boolean. -/
def isBoolV : YValue → Bool
  | .bool _ => true
  | _ => false

theorem typeCheck_tStr_not_bool {v : YValue} (h : typeCheck .tStr v = true) :
    isBoolV v = false := by
  cases v <;> simp_all [typeCheck, isBoolV]

theorem dictLookup_mem {d : List (String × YValue)} {k : String} {v : YValue}
    (h : dictLookup k d = some v) : (k, v) ∈ d := by
  induction d with
  | nil => simp [dictLookup] at h
  | cons p rest ih =>
    simp only [dictLookup] at h
    split at h
    · rcases p with ⟨k2, w⟩
      have hk : k2 = k := by assumption
      have hv : w = v := by simpa using h
      rw [hk, hv] at *
      simp
    · simp [ih h]

theorem dictLookup_split {d : List (String × YValue)} {k : String} {v : YValue}
    (h : dictLookup k d = some v) :
    ∃ d1 d2, d = d1 ++ (k, v) :: d2 ∧ ∀ p ∈ d1, p.1 ≠ k := by
  induction d with
  | nil => simp [dictLookup] at h
  | cons p rest ih =>
    simp only [dictLookup] at h
    split at h
    · rcases p with ⟨k2, w⟩
      have hk : k2 = k := by assumption
      have hv : w = v := by simpa using h
      exact ⟨[], rest, by rw [hk, hv]; simp, by simp⟩
    · obtain ⟨d1, d2, heq, hne⟩ := ih h
      refine ⟨p :: d1, d2, by rw [heq]; simp, ?_⟩
      intro q hq
      rcases List.mem_cons.mp hq with rfl | hq2
      · assumption
      · exact hne q hq2

theorem lookupOpt_of_mem {name : String} (h : name ∈ dataNames) :
    ∃ o, lookupOpt name = some o ∧ o.name = name := by
  obtain ⟨o, ho, hn⟩ := List.mem_map.mp h
  have hsome : (lookupOpt name).isSome := by
    unfold lookupOpt
    rw [List.find?_isSome]
    exact ⟨o, ho, by simp [hn]⟩
  obtain ⟨o2, ho2⟩ := Option.isSome_iff_exists.mp hsome
  refine ⟨o2, ho2, ?_⟩
  have := List.find?_some ho2
  simpa using this

theorem lookupOpt_eq_none_of_not_mem {name : String} (h : name ∉ dataNames) :
    lookupOpt name = none := by
  unfold lookupOpt
  rw [List.find?_eq_none]
  intro o ho hbeq
  apply h
  have hn : o.name = name := by simpa using hbeq
  rw [← hn]
  exact List.mem_map_of_mem _ ho

theorem migrateBool_skip {n t f : String} {acc : List (String × YValue) × Bool}
    (h : ∀ scopes, dictLookup n acc.1 = some (.dict scopes) →
      ∀ q ∈ scopes, isBoolV q.2 = false) :
    migrateBool n t f acc = acc := by
  unfold migrateBool
  cases hl : dictLookup n acc.1
  · rfl
  · case some v =>
    cases v
    case dict scopes =>
      have hhit : ¬ ((scopes.any fun p => match p.2 with
          | YValue.bool _ => true | _ => false) = true) := by
        rw [List.any_eq_true]
        rintro ⟨q, hq, hb⟩
        have := h scopes hl q hq
        rcases q with ⟨s, w⟩
        cases w <;> simp_all [isBoolV]
      simp only []
      rw [if_neg hhit]
    all_goals rfl

/-- The migration layer is the identity on a mapping whose keys are not in
the tables, that holds none of the removed or renamed special options, and
whose values for the boolean-migrated options contain no booleans. -/
theorem handleMigrations_nobool {mig : Migrations} {d : List (String × YValue)}
    (hfold : ∀ k ∈ dictKeys d,
      lookupRenamed k mig.renamed = none ∧ mig.deleted.contains k = false)
    (hpersist : dictLookup "tabs.persist_mode_on_change" d = none)
    (hbd : dictLookup "bindings.default" d = none)
    (hwold : dictLookup "content.webrtc_public_interfaces_only" d = none)
    (hw : ∀ scopes, dictLookup "content.webrtc_ip_handling_policy" d
      = some (.dict scopes) → ∀ q ∈ scopes, isBoolV q.2 = false)
    (hf : ∀ scopes, dictLookup "tabs.favicons.show" d
      = some (.dict scopes) → ∀ q ∈ scopes, isBoolV q.2 = false)
    (hq : ∀ scopes, dictLookup "qt.force_software_rendering" d
      = some (.dict scopes) → ∀ q ∈ scopes, isBoolV q.2 = false) :
    handleMigrations mig d = (d, false) := by
  unfold handleMigrations
  rw [foldl_migrateStep_benign hfold,
    migratePersist_of_none hpersist,
    migrateBindingsDefault_of_none hbd,
    migrateWebrtcRename_of_none hwold,
    @migrateBool_skip "content.webrtc_ip_handling_policy"
      "default-public-interface-only" "all-interfaces" (d, false) hw,
    @migrateBool_skip "tabs.favicons.show" "always" "never" (d, false) hf,
    @migrateBool_skip "qt.force_software_rendering" "software-opengl" "none" (d, false) hq]

theorem collectErrors_append_unhandled (pre : List PyStatement) (m tb : String)
    (rest : List PyStatement) (hpre : ∀ s ∈ pre, isRecoverable s = true) :
    collectErrors (pre ++ .unhandled m tb :: rest)
      = pre.filterMap descOfStatement ++ [⟨"Unhandled exception", m, some tb⟩] := by
  induction pre with
  | nil => rfl
  | cons s pre ih =>
    have hs := hpre s (by simp)
    have ihh := ih (fun q hq => hpre q (by simp [hq]))
    cases s
    case ok => simpa [collectErrors, descOfStatement] using ihh
    case settingError t msg => simp [collectErrors, descOfStatement, ihh]
    case unhandled a b => simp [isRecoverable] at hs

theorem foldl_migrateStep_around {mig : Migrations} {ks1 ks2 : List String} (k : String)
    (acc : List (String × YValue) × Bool)
    (h1 : ∀ x ∈ ks1, lookupRenamed x mig.renamed = none ∧ mig.deleted.contains x = false)
    (h2 : ∀ x ∈ ks2, lookupRenamed x mig.renamed = none ∧ mig.deleted.contains x = false) :
    (ks1 ++ k :: ks2).foldl (migrateStep mig) acc = migrateStep mig acc k := by
  rw [List.foldl_append, foldl_migrateStep_benign h1, List.foldl_cons,
    foldl_migrateStep_benign h2]

theorem benignEntry_keys {mig : Migrations} {l : List (String × YValue)}
    (h : ∀ p ∈ l, benignEntry mig p) :
    ∀ k ∈ dictKeys l, benignKey mig k = true := by
  intro k hk
  obtain ⟨p, hp, hpk⟩ := List.mem_map.mp hk
  rw [← hpk]
  exact (h p hp).1

theorem benignEntry_known {mig : Migrations} {l : List (String × YValue)}
    (h : ∀ p ∈ l, benignEntry mig p) :
    ∀ k ∈ dictKeys l, dataNames.contains k = true := by
  intro k hk
  obtain ⟨p, hp, hpk⟩ := List.mem_map.mp hk
  rw [← hpk]
  exact (h p hp).2.1

theorem benignEntry_dicts {mig : Migrations} {l : List (String × YValue)}
    (h : ∀ p ∈ l, benignEntry mig p) :
    ∀ p ∈ l, ∃ scopes, p.2 = YValue.dict scopes := by
  intro p hp
  obtain ⟨scopes, hsc, _⟩ := (h p hp).2.2
  exact ⟨scopes, hsc⟩

theorem benignKey_fold {mig : Migrations} {k : String} (h : benignKey mig k = true) :
    lookupRenamed k mig.renamed = none ∧ mig.deleted.contains k = false :=
  ⟨(benignKey_spec h).1, (benignKey_spec h).2.1⟩

/-! ### The claims -/

/-- Claim C5 (confirmed): loading an autoconfig.yml whose config_version is
an integer greater than 2 fails by raising ConfigFileErrors containing
exactly one error whose text is "While reading" and whose message is that the
config cannot be read from an incompatible newer version. -/
theorem load_refuses_newer_version (mig : Migrations) (tl : List (String × YValue))
    (mt : Nat) (v : Int)
    (hv : dictLookup "config_version" tl = some (.int v)) (hgt : 2 < v) :
    YamlConfig.load mig (some ⟨.dict tl, mt⟩)
      = .error [⟨"While reading",
          "Can\x27t read config from incompatible newer version", none⟩] := by
  have h1 : ¬ ((v == 1) = true) := by
    simp only [beq_iff_eq]
    omega
  simp only [YamlConfig.load, popObject, hv]
  rw [if_neg h1, if_pos hgt]

/-- Witness for the claim C5 theorem at config_version 999. -/
theorem load_refuses_newer_version_witness :
    YamlConfig.load MIGRATIONS
        (some ⟨.dict [("config_version", .int 999), ("settings", .dict [])], 0⟩)
      = .error [⟨"While reading",
          "Can\x27t read config from incompatible newer version", none⟩] :=
  load_refuses_newer_version MIGRATIONS
    [("config_version", .int 999), ("settings", .dict [])] 0 999 rfl (by norm_num)

/-- Claim C9 (confirmed): read_config_py collects errors instead of aborting
at the first one: when the statements raise recoverable setting errors and
then an unhandled exception, one ConfigFileErrors is raised holding one entry
per failing statement in source order, the setting errors without a
traceback, the unhandled exception with one. -/
theorem read_config_py_collects_errors (pre : List PyStatement) (m tb : String)
    (rest : List PyStatement) (hpre : ∀ s ∈ pre, isRecoverable s = true) :
    readConfigPy (pre ++ .unhandled m tb :: rest)
        = .error (pre.filterMap descOfStatement
            ++ [⟨"Unhandled exception", m, some tb⟩])
      ∧ ∀ e ∈ pre.filterMap descOfStatement, e.traceback = none := by
  constructor
  · unfold readConfigPy
    rw [collectErrors_append_unhandled pre m tb rest hpre]
    rw [if_neg (by simp)]
  · intro e he
    obtain ⟨s, hs, hdesc⟩ := List.mem_filterMap.mp he
    cases s
    case ok => simp [descOfStatement] at hdesc
    case settingError t msg =>
      have he2 : e = ⟨t, msg, none⟩ := by
        have : some (⟨t, msg, none⟩ : ErrorDesc) = some e := hdesc
        exact (Option.some_injective _ this).symm
      rw [he2]
    case unhandled a b =>
      have := hpre _ hs
      simp [isRecoverable] at this

/-- Witness for the claim C9 theorem: two recoverable setting errors followed
by an unhandled exception give three entries in order. -/
theorem read_config_py_collects_errors_witness :
    readConfigPy [.settingError "While setting" "No option foo",
        .settingError "While setting" "No option foo",
        .unhandled "division by zero" "tb"]
        = .error [⟨"While setting", "No option foo", none⟩,
            ⟨"While setting", "No option foo", none⟩,
            ⟨"Unhandled exception", "division by zero", some "tb"⟩]
      ∧ ∀ e ∈ ([.settingError "While setting" "No option foo",
            .settingError "While setting" "No option foo"]
              : List PyStatement).filterMap descOfStatement,
          e.traceback = none :=
  read_config_py_collects_errors
    [.settingError "While setting" "No option foo",
     .settingError "While setting" "No option foo"]
    "division by zero" "tb" []
    (by intro s hs; rcases List.mem_cons.mp hs with rfl | hs2; · rfl
        rcases List.mem_cons.mp hs2 with rfl | hs3; · rfl
        simp at hs3)

/-- Claim C8 (confirmed): after config.bind(key, command, mode) the
bindings.commands option maps that mode to the singleton binding, and the
form without a mode argument binds in normal mode. -/
theorem config_bind_inserts (key command mode : String) :
    Config.getObj (Config.fresh.bind key command mode) "bindings.commands"
        = some (.dict [(mode, .dict [(key, .str command)])])
      ∧ ∀ cfg : Config, Config.bindDefault cfg key command
          = cfg.bind key command "normal" :=
  ⟨rfl, fun _ => rfl⟩

/-- Claim C10 (confirmed): when nothing was changed between load and _save,
the filesystem is untouched: with no autoconfig.yml none is created, and an
existing, fully valid, migration-free file is left byte for byte with its
modification time intact. -/
theorem save_untouched_when_unchanged (mig : Migrations)
    (tl d : List (String × YValue)) (mt now now2 : Nat)
    (hv : dictLookup "config_version" tl = some (.int 2))
    (hs : dictLookup "settings" tl = some (.dict d))
    (hbenign : ∀ p ∈ d, benignEntry mig p) :
    (YamlConfig.load mig none = .ok YamlConfig.fresh
      ∧ YamlConfig.fresh.save none now2 = none)
    ∧ ∃ st, YamlConfig.load mig (some ⟨.dict tl, mt⟩) = .ok st
        ∧ st.save (some ⟨.dict tl, mt⟩) now = some ⟨.dict tl, mt⟩ := by
  have hkeys : ∀ k ∈ dictKeys d, benignKey mig k = true := by
    intro k hk
    obtain ⟨p, hp, hpk⟩ := List.mem_map.mp hk
    rw [← hpk]
    exact (hbenign p hp).1
  have hknown : ∀ k ∈ dictKeys d, dataNames.contains k = true := by
    intro k hk
    obtain ⟨p, hp, hpk⟩ := List.mem_map.mp hk
    rw [← hpk]
    exact (hbenign p hp).2.1
  have hdicts : ∀ p ∈ d, ∃ scopes, p.2 = YValue.dict scopes := by
    intro p hp
    obtain ⟨scopes, hsc, _⟩ := (hbenign p hp).2.2
    exact ⟨scopes, hsc⟩
  refine ⟨⟨rfl, rfl⟩, ⟨⟨builtState d, false⟩, ?_, rfl⟩⟩
  rw [load_version2 hv hs,
    finishLoad_eq_ok false (handleMigrations_benign hkeys) hknown hdicts]
  rfl

/-- Witness for the claim C10 theorem on a one-option autoconfig.yml. -/
theorem save_untouched_when_unchanged_witness :
    (YamlConfig.load MIGRATIONS none = .ok YamlConfig.fresh
      ∧ YamlConfig.fresh.save none 99 = none)
    ∧ ∃ st, YamlConfig.load MIGRATIONS
          (some ⟨.dict [("config_version", .int 2), ("settings",
            .dict [("colors.hints.fg", .dict [("global", .str "magenta")])])], 42⟩)
          = .ok st
        ∧ st.save (some ⟨.dict [("config_version", .int 2), ("settings",
            .dict [("colors.hints.fg", .dict [("global", .str "magenta")])])], 42⟩) 7
          = some ⟨.dict [("config_version", .int 2), ("settings",
            .dict [("colors.hints.fg", .dict [("global", .str "magenta")])])], 42⟩ :=
  save_untouched_when_unchanged MIGRATIONS
    [("config_version", .int 2), ("settings",
      .dict [("colors.hints.fg", .dict [("global", .str "magenta")])])]
    [("colors.hints.fg", .dict [("global", .str "magenta")])] 42 7 99 rfl rfl
    (by
      intro p hp
      rw [List.mem_singleton] at hp
      rw [hp]
      exact ⟨by decide, by decide, [("global", .str "magenta")], rfl, by decide⟩)

/-- Claim C3 (confirmed): loading an autoconfig.yml whose settings contain a
key listed in the deleted-options migration table succeeds, and the saved
file no longer contains that key. -/
theorem load_deleted_key (mig : Migrations) (tl : List (String × YValue))
    (pre post : List (String × YValue)) (victim : String) (v : YValue)
    (mt now : Nat) (fs0 : Option YamlFile)
    (hv : dictLookup "config_version" tl = some (.int 2))
    (hs : dictLookup "settings" tl = some (.dict (pre ++ (victim, v) :: post)))
    (hdel : mig.deleted.contains victim = true)
    (hnoren : lookupRenamed victim mig.renamed = none)
    (hvic1 : ∀ p ∈ pre, p.1 ≠ victim)
    (hvic2 : ∀ p ∈ post, p.1 ≠ victim)
    (hbenign : ∀ p ∈ pre ++ post, benignEntry mig p) :
    ∃ st, YamlConfig.load mig (some ⟨.dict tl, mt⟩) = .ok st
      ∧ dictLookup victim (savedSettings st) = none
      ∧ st.save fs0 now = some ⟨.dict [("config_version", .int 2),
          ("settings", .dict (savedSettings st))], now⟩ := by
  have hbpp : ∀ k ∈ dictKeys (pre ++ post), benignKey mig k = true :=
    benignEntry_keys hbenign
  have hf1 : ∀ x ∈ dictKeys pre,
      lookupRenamed x mig.renamed = none ∧ mig.deleted.contains x = false := by
    intro x hx
    exact benignKey_fold (hbpp x (by rw [dictKeys_append]; exact List.mem_append_left _ hx))
  have hf2 : ∀ x ∈ dictKeys post,
      lookupRenamed x mig.renamed = none ∧ mig.deleted.contains x = false := by
    intro x hx
    exact benignKey_fold (hbpp x (by rw [dictKeys_append]; exact List.mem_append_right _ hx))
  have hkeys_eq : dictKeys (pre ++ (victim, v) :: post)
      = dictKeys pre ++ victim :: dictKeys post := by
    simp [dictKeys]
  have hlookup : dictLookup victim (pre ++ (victim, v) :: post) = some v := by
    rw [dictLookup_append_right hvic1]
    simp [dictLookup]
  have hdd : dictDel victim (pre ++ (victim, v) :: post) = pre ++ post := by
    unfold dictDel
    rw [List.filter_append]
    congr 1
    · exact List.filter_eq_self.mpr (fun p hp => by simpa using hvic1 p hp)
    · rw [List.filter_cons]
      rw [if_neg (by simp)]
      exact List.filter_eq_self.mpr (fun p hp => by simpa using hvic2 p hp)
  have hstep : migrateStep mig ((pre ++ (victim, v) :: post), false) victim
      = (pre ++ post, true) := by
    simp only [migrateStep, hnoren, hdel, hlookup, if_true]
    rw [hdd]
  have hm : handleMigrations mig (pre ++ (victim, v) :: post) = (pre ++ post, true) := by
    unfold handleMigrations
    rw [hkeys_eq, foldl_migrateStep_around victim _ hf1 hf2, hstep]
    exact specialSteps_benign (dictLookup_specials_none hbpp)
  refine ⟨⟨builtState (pre ++ post), true⟩, ?_, ?_, ?_⟩
  · rw [load_version2 hv hs,
      finishLoad_eq_ok false hm (benignEntry_known hbenign) (benignEntry_dicts hbenign)]
    rfl
  · rw [dictLookup_savedSettings]
    cases ho : lookupOpt victim
    · rfl
    · case some o =>
      have honame : o.name = victim := by simpa using List.find?_some ho
      have hno : ∀ p ∈ pre ++ post, p.1 ≠ (⟨o, []⟩ : Values).opt.name := by
        intro p hp
        show p.1 ≠ o.name
        rw [honame]
        rcases List.mem_append.mp hp with h1 | h2
        · exact hvic1 p h1
        · exact hvic2 p h2
      simp only [buildOne_of_not_mem hno]
      rfl
  · exact save_dirty _ fs0 now

/-- Witness for the claim C3 theorem: a deleted key "hello" is dropped. -/
theorem load_deleted_key_witness :
    ∃ st, YamlConfig.load ⟨[], ["hello"]⟩
        (some ⟨.dict [("config_version", .int 2), ("settings",
          .dict [("hello", .dict [("global", .str "world")])])], 0⟩) = .ok st
      ∧ dictLookup "hello" (savedSettings st) = none
      ∧ st.save none 3 = some ⟨.dict [("config_version", .int 2),
          ("settings", .dict (savedSettings st))], 3⟩ :=
  load_deleted_key ⟨[], ["hello"]⟩
    [("config_version", .int 2), ("settings",
      .dict [("hello", .dict [("global", .str "world")])])]
    [] [] "hello" (.dict [("global", .str "world")]) 0 3 none
    rfl rfl rfl rfl (by simp) (by simp) (by simp)

/-- Claim C2 (confirmed): loading an autoconfig.yml whose settings contain a
key listed in the renamed-options migration table (whose target is a known
option) and saving produces a file in which the old key is absent and the
new key is mapped to exactly the scoped-value mapping the old key had. -/
theorem load_renamed_key (mig : Migrations) (tl : List (String × YValue))
    (pre post oldScopes : List (String × YValue)) (old newName : String)
    (mt now : Nat) (fs0 : Option YamlFile)
    (hv : dictLookup "config_version" tl = some (.int 2))
    (hs : dictLookup "settings" tl
      = some (.dict (pre ++ (old, .dict oldScopes) :: post)))
    (hren : lookupRenamed old mig.renamed = some newName)
    (hknownNew : newName ∈ dataNames)
    (hnotspecNew : specialNames.contains newName = false)
    (hold1 : ∀ p ∈ pre, p.1 ≠ old) (hold2 : ∀ p ∈ post, p.1 ≠ old)
    (hnew1 : ∀ p ∈ pre, p.1 ≠ newName) (hnew2 : ∀ p ∈ post, p.1 ≠ newName)
    (hnewold : newName ≠ old)
    (hscne : oldScopes ≠ [])
    (hscnd : (dictKeys oldScopes).Nodup)
    (hbenign : ∀ p ∈ pre ++ post, benignEntry mig p) :
    ∃ st, YamlConfig.load mig (some ⟨.dict tl, mt⟩) = .ok st
      ∧ st.save fs0 now = some ⟨.dict [("config_version", .int 2),
          ("settings", .dict (savedSettings st))], now⟩
      ∧ dictLookup old (savedSettings st) = none
      ∧ ∃ newScopes, dictLookup newName (savedSettings st) = some (.dict newScopes)
          ∧ ∀ scope, dictLookup scope newScopes = dictLookup scope oldScopes := by
  have hbpp : ∀ k ∈ dictKeys (pre ++ post), benignKey mig k = true :=
    benignEntry_keys hbenign
  have hf1 : ∀ x ∈ dictKeys pre,
      lookupRenamed x mig.renamed = none ∧ mig.deleted.contains x = false := by
    intro x hx
    exact benignKey_fold (hbpp x (by rw [dictKeys_append]; exact List.mem_append_left _ hx))
  have hf2 : ∀ x ∈ dictKeys post,
      lookupRenamed x mig.renamed = none ∧ mig.deleted.contains x = false := by
    intro x hx
    exact benignKey_fold (hbpp x (by rw [dictKeys_append]; exact List.mem_append_right _ hx))
  have hkeys_eq : dictKeys (pre ++ (old, YValue.dict oldScopes) :: post)
      = dictKeys pre ++ old :: dictKeys post := by
    simp [dictKeys]
  have hlookup : dictLookup old (pre ++ (old, YValue.dict oldScopes) :: post)
      = some (.dict oldScopes) := by
    rw [dictLookup_append_right hold1]
    simp [dictLookup]
  have hnotmemNew : ∀ p ∈ pre ++ (old, YValue.dict oldScopes) :: post, p.1 ≠ newName := by
    intro p hp
    rcases List.mem_append.mp hp with h1 | h2
    · exact hnew1 p h1
    · rcases List.mem_cons.mp h2 with rfl | h3
      · exact fun he => hnewold he.symm
      · exact hnew2 p h3
  have hset : dictSet newName (YValue.dict oldScopes)
        (pre ++ (old, YValue.dict oldScopes) :: post)
      = (pre ++ (old, YValue.dict oldScopes) :: post)
          ++ [(newName, YValue.dict oldScopes)] :=
    dictSet_of_not_mem _ hnotmemNew
  have hdd : dictDel old ((pre ++ (old, YValue.dict oldScopes) :: post)
        ++ [(newName, YValue.dict oldScopes)])
      = (pre ++ post) ++ [(newName, YValue.dict oldScopes)] := by
    unfold dictDel
    rw [List.filter_append, List.filter_append, List.filter_cons]
    rw [if_neg (by simp)]
    rw [List.filter_eq_self.mpr (fun p hp => by simpa using hold1 p hp),
      List.filter_eq_self.mpr (fun p hp => by simpa using hold2 p hp),
      List.filter_eq_self.mpr (fun p hp => by
        rw [List.mem_singleton] at hp
        rw [hp]
        simpa using hnewold)]
  have hstep : migrateStep mig ((pre ++ (old, YValue.dict oldScopes) :: post), false) old
      = ((pre ++ post) ++ [(newName, YValue.dict oldScopes)], true) := by
    simp only [migrateStep, hren, hlookup]
    rw [hset, hdd]
  have hkeys2 : ∀ k ∈ dictKeys ((pre ++ post) ++ [(newName, YValue.dict oldScopes)]),
      k ∈ dictKeys (pre ++ post) ∨ k = newName := by
    intro k hk
    rw [dictKeys_append] at hk
    rcases List.mem_append.mp hk with h1 | h2
    · exact Or.inl h1
    · right
      simpa [dictKeys] using h2
  have hnone : ∀ n ∈ specialNames,
      dictLookup n ((pre ++ post) ++ [(newName, YValue.dict oldScopes)]) = none := by
    intro n hn
    apply dictLookup_eq_none_of_forall
    intro p hp heq
    rcases List.mem_append.mp hp with h1 | h2
    · have hs2 := (benignKey_spec (hbpp p.1 (List.mem_map_of_mem Prod.fst h1))).2.2
      rw [heq, show specialNames.contains n = List.elem n specialNames from rfl,
        List.elem_eq_true_of_mem hn] at hs2
      exact Bool.true_eq_false.mp hs2
    · rw [List.mem_singleton] at h2
      rw [h2] at heq
      have heq2 : newName = n := heq
      rw [heq2, show specialNames.contains n = List.elem n specialNames from rfl,
        List.elem_eq_true_of_mem hn] at hnotspecNew
      exact Bool.true_eq_false.mp hnotspecNew
  have hm : handleMigrations mig (pre ++ (old, YValue.dict oldScopes) :: post)
      = ((pre ++ post) ++ [(newName, YValue.dict oldScopes)], true) := by
    unfold handleMigrations
    rw [hkeys_eq, foldl_migrateStep_around old _ hf1 hf2, hstep]
    exact specialSteps_benign hnone
  have hknown2 : ∀ k ∈ dictKeys ((pre ++ post) ++ [(newName, YValue.dict oldScopes)]),
      dataNames.contains k = true := by
    intro k hk
    rcases hkeys2 k hk with h1 | h2
    · exact benignEntry_known hbenign k h1
    · rw [h2]
      exact List.elem_eq_true_of_mem hknownNew
  have hdicts2 : ∀ p ∈ (pre ++ post) ++ [(newName, YValue.dict oldScopes)],
      ∃ scopes, p.2 = YValue.dict scopes := by
    intro p hp
    rcases List.mem_append.mp hp with h1 | h2
    · exact benignEntry_dicts hbenign p h1
    · rw [List.mem_singleton] at h2
      rw [h2]
      exact ⟨oldScopes, rfl⟩
  refine ⟨⟨builtState ((pre ++ post) ++ [(newName, YValue.dict oldScopes)]), true⟩,
    ?_, save_dirty _ fs0 now, ?_, ?_⟩
  · rw [load_version2 hv hs, finishLoad_eq_ok false hm hknown2 hdicts2]
    rfl
  · rw [dictLookup_savedSettings]
    cases ho : lookupOpt old
    · rfl
    · case some o =>
      have honame : o.name = old := by simpa using List.find?_some ho
      have hno : ∀ p ∈ (pre ++ post) ++ [(newName, YValue.dict oldScopes)],
          p.1 ≠ (⟨o, []⟩ : Values).opt.name := by
        intro p hp
        show p.1 ≠ o.name
        rw [honame]
        rcases List.mem_append.mp hp with h1 | h2
        · rcases List.mem_append.mp h1 with h3 | h4
          · exact hold1 p h3
          · exact hold2 p h4
        · rw [List.mem_singleton] at h2
          rw [h2]
          exact hnewold
      simp only [buildOne_of_not_mem hno]
      rfl
  · obtain ⟨o, ho, honame⟩ := lookupOpt_of_mem hknownNew
    have hsplit : buildOne ((pre ++ post) ++ [(newName, YValue.dict oldScopes)])
        (⟨o, []⟩ : Values) = buildOptionValues o oldScopes := by
      have h1 : ∀ p ∈ pre ++ post, p.1 ≠ newName := by
        intro p hp
        rcases List.mem_append.mp hp with h3 | h4
        · exact hnew1 p h3
        · exact hnew2 p h4
      have := @buildOne_split (pre ++ post) [] newName oldScopes ⟨o, []⟩
        h1 (by simp) honame
      simpa using this
    have hEne : (buildOptionValues o oldScopes).entries.isEmpty = false := by
      cases hE : (buildOptionValues o oldScopes).entries.isEmpty
      · rfl
      · exact absurd (List.isEmpty_iff.mp hE)
          (buildOptionValues_entries_ne_nil o hscne hscnd)
    refine ⟨serializeValues (buildOptionValues o oldScopes), ?_, ?_⟩
    · rw [dictLookup_savedSettings, ho]
      simp only [hsplit, hEne]
      rfl
    · intro scope
      exact dictLookup_serialize_buildOptionValues o oldScopes hscnd scope

/-- Witness for the claim C2 theorem: key "old" renamed to "tabs.show". -/
theorem load_renamed_key_witness :
    ∃ st, YamlConfig.load ⟨[("old", "tabs.show")], []⟩
        (some ⟨.dict [("config_version", .int 2), ("settings",
          .dict [("old", .dict [("global", .str "value")])])], 0⟩) = .ok st
      ∧ st.save none 3 = some ⟨.dict [("config_version", .int 2),
          ("settings", .dict (savedSettings st))], 3⟩
      ∧ dictLookup "old" (savedSettings st) = none
      ∧ ∃ newScopes, dictLookup "tabs.show" (savedSettings st) = some (.dict newScopes)
          ∧ ∀ scope, dictLookup scope newScopes
              = dictLookup scope [("global", .str "value")] :=
  load_renamed_key ⟨[("old", "tabs.show")], []⟩
    [("config_version", .int 2), ("settings",
      .dict [("old", .dict [("global", .str "value")])])]
    [] [] [("global", .str "value")] "old" "tabs.show" 0 3 none
    rfl rfl rfl (by decide) (by decide) (by simp) (by simp) (by simp) (by simp)
    (by decide) (by simp) (by decide) (by simp)

/-- Claim C4 (confirmed): loading an autoconfig.yml with config_version 1
(settings under a toplevel global mapping) succeeds and marks the config
changed, and saving afterwards writes the version-2 format: config_version 2
and every former global value stored as {option: {global: value}}. -/
theorem legacy_v1_migration (mig : Migrations) (tl g : List (String × YValue))
    (mt now : Nat) (fs0 : Option YamlFile)
    (hv : dictLookup "config_version" tl = some (.int 1))
    (hg : dictLookup "global" tl = some (.dict g))
    (hnodup : (dictKeys g).Nodup)
    (hkeys : ∀ p ∈ g, benignKey mig p.1 = true ∧ dataNames.contains p.1 = true) :
    ∃ st, YamlConfig.load mig (some ⟨.dict tl, mt⟩) = .ok st
      ∧ st.dirty = true
      ∧ st.save fs0 now = some ⟨.dict [("config_version", .int 2),
          ("settings", .dict (savedSettings st))], now⟩
      ∧ ∀ k, dictLookup k (savedSettings st)
          = Option.map (fun v => YValue.dict [("global", v)]) (dictLookup k g) := by
  have hkeys_eq : dictKeys (g.map (fun p => (p.1, YValue.dict [("global", p.2)])))
      = dictKeys g := by
    simp [dictKeys, List.map_map]
  have hbk : ∀ k ∈ dictKeys (g.map (fun p => (p.1, YValue.dict [("global", p.2)]))),
      benignKey mig k = true := by
    rw [hkeys_eq]
    intro k hk
    obtain ⟨p, hp, hpk⟩ := List.mem_map.mp hk
    rw [← hpk]
    exact (hkeys p hp).1
  have hknown : ∀ k ∈ dictKeys (g.map (fun p => (p.1, YValue.dict [("global", p.2)]))),
      dataNames.contains k = true := by
    rw [hkeys_eq]
    intro k hk
    obtain ⟨p, hp, hpk⟩ := List.mem_map.mp hk
    rw [← hpk]
    exact (hkeys p hp).2
  have hdicts : ∀ p ∈ g.map (fun p => (p.1, YValue.dict [("global", p.2)])),
      ∃ scopes, p.2 = YValue.dict scopes := by
    intro p hp
    obtain ⟨q, _, hq⟩ := List.mem_map.mp hp
    rw [← hq]
    exact ⟨[("global", q.2)], rfl⟩
  refine ⟨⟨builtState (g.map (fun p => (p.1, YValue.dict [("global", p.2)]))), true⟩,
    ?_, rfl, save_dirty _ fs0 now, ?_⟩
  · rw [load_version1 hv hg,
      finishLoad_eq_ok true (handleMigrations_benign hbk) hknown hdicts]
    rfl
  · intro k
    rw [dictLookup_savedSettings]
    cases ho : lookupOpt k
    · cases hgk : dictLookup k g
      · rfl
      · case some v =>
        exfalso
        have hmem := dictLookup_mem hgk
        have hcont := (hkeys _ hmem).2
        have : k ∈ dataNames := List.mem_of_elem_eq_true hcont
        obtain ⟨o, ho2, _⟩ := lookupOpt_of_mem this
        rw [ho2] at ho
        exact Option.noConfusion ho
    · case some o =>
      have honame : o.name = k := by simpa using List.find?_some ho
      cases hgk : dictLookup k g
      · have hno : ∀ p ∈ g.map (fun p => (p.1, YValue.dict [("global", p.2)])),
            p.1 ≠ (⟨o, []⟩ : Values).opt.name := by
          intro p hp
          show p.1 ≠ o.name
          rw [honame]
          obtain ⟨q, hq, hqp⟩ := List.mem_map.mp hp
          rw [← hqp]
          exact forall_ne_of_dictLookup_eq_none hgk q hq
        simp only [buildOne_of_not_mem hno]
        rfl
      · case some v =>
        obtain ⟨g1, g2, hgeq, hne1⟩ := dictLookup_split hgk
        have hne2 : ∀ p ∈ g2, p.1 ≠ k := by
          rw [hgeq] at hnodup
          have hnd2 : (dictKeys g1 ++ k :: dictKeys g2).Nodup := by
            simpa [dictKeys] using hnodup
          have hknot : k ∉ dictKeys g2 :=
            (List.nodup_cons.mp (List.nodup_append.mp hnd2).2.1).1
          intro p hp heq
          exact hknot (heq ▸ List.mem_map_of_mem Prod.fst hp)
        have hsplit : buildOne (g.map (fun p => (p.1, YValue.dict [("global", p.2)])))
            (⟨o, []⟩ : Values) = buildOptionValues o [("global", v)] := by
          rw [hgeq, List.map_append, List.map_cons]
          exact @buildOne_split (g1.map (fun p => (p.1, YValue.dict [("global", p.2)])))
            (g2.map (fun p => (p.1, YValue.dict [("global", p.2)]))) k
            [("global", v)] ⟨o, []⟩
            (by
              intro p hp
              obtain ⟨q, hq, hqp⟩ := List.mem_map.mp hp
              rw [← hqp]
              exact hne1 q hq)
            (by
              intro p hp
              obtain ⟨q, hq, hqp⟩ := List.mem_map.mp hp
              rw [← hqp]
              exact hne2 q hq)
            honame
        simp only [hsplit]
        rfl

/-- Witness for the claim C4 theorem on a one-option legacy file. -/
theorem legacy_v1_migration_witness :
    ∃ st, YamlConfig.load MIGRATIONS
        (some ⟨.dict [("config_version", .int 1), ("global",
          .dict [("content.javascript.enabled", .bool true)])], 0⟩) = .ok st
      ∧ st.dirty = true
      ∧ st.save none 5 = some ⟨.dict [("config_version", .int 2),
          ("settings", .dict (savedSettings st))], 5⟩
      ∧ ∀ k, dictLookup k (savedSettings st)
          = Option.map (fun v => YValue.dict [("global", v)])
              (dictLookup k [("content.javascript.enabled", .bool true)]) :=
  legacy_v1_migration MIGRATIONS
    [("config_version", .int 1), ("global",
      .dict [("content.javascript.enabled", .bool true)])]
    [("content.javascript.enabled", .bool true)] 0 5 none rfl rfl (by decide)
    (by
      intro p hp
      rw [List.mem_singleton] at hp
      rw [hp]
      exact ⟨by decide, by decide⟩)

theorem find_fresh_config (n : String) :
    Config.fresh.values.find? (fun vs => vs.opt.name == n)
      = Option.map (fun o => (⟨o, []⟩ : Values)) (lookupOpt n) :=
  findVals_init n

theorem find_setObj (cfg : Config) (name n : String) (value : YValue)
    (pattern : Option String) :
    (cfg.setObj name value pattern).values.find? (fun vs => vs.opt.name == n)
      = Option.map (fun vs => if vs.opt.name == name then vs.add value pattern else vs)
          (cfg.values.find? (fun vs => vs.opt.name == n)) := by
  show (cfg.values.map _).find? _ = _
  rw [List.find?_map]
  have hco : ((fun vs : Values => vs.opt.name == n)
      ∘ (fun vs => if vs.opt.name == name then vs.add value pattern else vs))
      = (fun vs : Values => vs.opt.name == n) := by
    funext vs
    by_cases h : (vs.opt.name == name) = true <;>
      simp [Function.comp, h, Values.add]
  rw [hco]

/-- Claim C7 (confirmed): setting an option scoped by a URL pattern leaves
the global value unchanged: the global get still returns the global value, a
get for a matching URL returns the override, and a get for a non-matching
URL returns the global value. -/
theorem set_with_pattern_frame (name : String) (vG vO : YValue) (p u1 u2 : String)
    (hmem : name ∈ dataNames)
    (hmatch : urlMatches p u1 = true) (hnomatch : urlMatches p u2 = false) :
    Config.getObj ((Config.fresh.setObj name vG none).setObj name vO (some p)) name
        = Config.getObj (Config.fresh.setObj name vG none) name
      ∧ Config.getObj ((Config.fresh.setObj name vG none).setObj name vO (some p)) name
        = some vG
      ∧ Config.getForUrl ((Config.fresh.setObj name vG none).setObj name vO (some p)) name u1
        = some vO
      ∧ Config.getForUrl ((Config.fresh.setObj name vG none).setObj name vO (some p)) name u2
        = some vG := by
  obtain ⟨o, ho, honame⟩ := lookupOpt_of_mem hmem
  have hbeq : (o.name == name) = true := by simp [honame]
  have hfind1 : (Config.fresh.setObj name vG none).values.find?
      (fun vs => vs.opt.name == name) = some ⟨o, [⟨vG, none⟩]⟩ := by
    rw [find_setObj, find_fresh_config, ho]
    show some (if (o.name == name) = true then Values.add ⟨o, []⟩ vG none else ⟨o, []⟩) = _
    rw [if_pos hbeq]
    rfl
  have hfind2 : ((Config.fresh.setObj name vG none).setObj name vO (some p)).values.find?
      (fun vs => vs.opt.name == name) = some ⟨o, [⟨vG, none⟩, ⟨vO, some p⟩]⟩ := by
    rw [find_setObj, hfind1]
    show some (if (o.name == name) = true
      then Values.add ⟨o, [⟨vG, none⟩]⟩ vO (some p) else _) = _
    rw [if_pos hbeq]
    rfl
  refine ⟨?_, ?_, ?_, ?_⟩
  · show (match ((Config.fresh.setObj name vG none).setObj name vO (some p)).values.find?
        (fun vs => vs.opt.name == name) with
      | some vs => vs.getForUrl none true
      | none => none) = _
    rw [hfind2]
    show (Values.getForUrl ⟨o, [⟨vG, none⟩, ⟨vO, some p⟩]⟩ none true) = _
    rw [show Config.getObj (Config.fresh.setObj name vG none) name
      = (match (Config.fresh.setObj name vG none).values.find?
          (fun vs => vs.opt.name == name) with
        | some vs => vs.getForUrl none true
        | none => none) from rfl, hfind1]
    rfl
  · show (match ((Config.fresh.setObj name vG none).setObj name vO (some p)).values.find?
        (fun vs => vs.opt.name == name) with
      | some vs => vs.getForUrl none true
      | none => none) = _
    rw [hfind2]
    rfl
  · show (match ((Config.fresh.setObj name vG none).setObj name vO (some p)).values.find?
        (fun vs => vs.opt.name == name) with
      | some vs => vs.getForUrl (some u1) true
      | none => none) = _
    rw [hfind2]
    show Values.getForUrl ⟨o, [⟨vG, none⟩, ⟨vO, some p⟩]⟩ (some u1) true = some vO
    simp [Values.getForUrl, List.find?, hmatch]
  · show (match ((Config.fresh.setObj name vG none).setObj name vO (some p)).values.find?
        (fun vs => vs.opt.name == name) with
      | some vs => vs.getForUrl (some u2) true
      | none => none) = _
    rw [hfind2]
    show Values.getForUrl ⟨o, [⟨vG, none⟩, ⟨vO, some p⟩]⟩ (some u2) true = some vG
    simp [Values.getForUrl, List.find?, hnomatch]

/-- Witness for the claim C7 theorem on content.javascript.enabled with an
example.com pattern. -/
theorem set_with_pattern_frame_witness :
    Config.getObj ((Config.fresh.setObj "content.javascript.enabled" (.bool true) none).setObj
        "content.javascript.enabled" (.bool false) (some "https://www.example.com/"))
        "content.javascript.enabled"
      = Config.getObj (Config.fresh.setObj "content.javascript.enabled" (.bool true) none)
          "content.javascript.enabled"
    ∧ Config.getObj ((Config.fresh.setObj "content.javascript.enabled" (.bool true) none).setObj
        "content.javascript.enabled" (.bool false) (some "https://www.example.com/"))
        "content.javascript.enabled" = some (.bool true)
    ∧ Config.getForUrl ((Config.fresh.setObj "content.javascript.enabled" (.bool true) none).setObj
        "content.javascript.enabled" (.bool false) (some "https://www.example.com/"))
        "content.javascript.enabled" "https://www.example.com/" = some (.bool false)
    ∧ Config.getForUrl ((Config.fresh.setObj "content.javascript.enabled" (.bool true) none).setObj
        "content.javascript.enabled" (.bool false) (some "https://www.example.com/"))
        "content.javascript.enabled" "https://www.otherexample.com/" = some (.bool true) :=
  set_with_pattern_frame "content.javascript.enabled" (.bool true) (.bool false)
    "https://www.example.com/" "https://www.example.com/" "https://www.otherexample.com/"
    (by decide) (by decide) (by decide)

theorem filterMap_serEntry_setObj_aux (name : String) (value : YValue)
    (l : List OptionDef) (hmem : name ∈ l.map (fun o => o.name))
    (hnd : (l.map (fun o => o.name)).Nodup) :
    ((l.map (fun o => (⟨o, []⟩ : Values))).map
        (fun vs => if vs.opt.name == name then vs.add value none else vs)).filterMap
      serEntry = [(name, .dict [("global", value)])] := by
  induction l with
  | nil => simp at hmem
  | cons o l ih =>
    simp only [List.map_cons]
    by_cases h : o.name = name
    · have hif : (if ((⟨o, []⟩ : Values).opt.name == name) = true
          then Values.add ⟨o, []⟩ value none else ⟨o, []⟩)
          = ⟨o, [⟨value, none⟩]⟩ := by
        rw [if_pos (by simp [h])]
        rfl
      rw [List.filterMap_cons]
      rw [hif]
      rw [show serEntry ⟨o, [⟨value, none⟩]⟩
        = some (o.name, .dict [("global", value)]) from rfl]
      have hnotin : o.name ∉ l.map (fun o => o.name) :=
        (List.nodup_cons.mp hnd).1
      have hnil : ((l.map (fun o => (⟨o, []⟩ : Values))).map
          (fun vs => if vs.opt.name == name then vs.add value none else vs)).filterMap
          serEntry = [] := by
        rw [List.filterMap_eq_nil_iff]
        intro vs hvs
        obtain ⟨vs2, hvs2, hvse⟩ := List.mem_map.mp hvs
        obtain ⟨o2, ho2, ho2e⟩ := List.mem_map.mp hvs2
        have ho2n : o2.name ≠ name := by
          intro he
          apply hnotin
          rw [h, ← he]
          exact List.mem_map_of_mem _ ho2
        rw [← hvse, ← ho2e]
        rw [if_neg (by simp [ho2n])]
        rfl
      rw [hnil, h]
    · have hif : (if ((⟨o, []⟩ : Values).opt.name == name) = true
          then Values.add ⟨o, []⟩ value none else ⟨o, []⟩) = ⟨o, []⟩ := by
        rw [if_neg (by simp [h])]
      rw [List.filterMap_cons, hif]
      rw [show serEntry ⟨o, []⟩ = none from rfl]
      have hmem2 : name ∈ l.map (fun o => o.name) := by
        rcases List.mem_cons.mp hmem with he | hm2
        · exact absurd he.symm h
        · exact hm2
      exact ih hmem2 (List.nodup_cons.mp hnd).2

/-- After setting one option on a fresh YamlConfig, the saved settings hold
exactly that option with its global value. -/
theorem savedSettings_setObj_fresh (name : String) (value : YValue)
    (hmem : name ∈ dataNames) :
    savedSettings (YamlConfig.fresh.setObj name value none)
      = [(name, .dict [("global", value)])] :=
  filterMap_serEntry_setObj_aux name value DATA hmem (by decide)

/-- Claim C1 (corrected): for every valid option name other than
bindings.default, and every valid value, setting the value via set_obj,
saving with _save, and loading the file with a freshly constructed
YamlConfig yields the same value for that option.  (bindings.default is a
valid option whose stored values the migration layer drops on load, so it is
excluded; see the counterexample.) -/
theorem set_save_load_roundtrip (name : String) (value : YValue)
    (fs0 : Option YamlFile) (now : Nat)
    (hmem : name ∈ dataNames) (hacc : accepts name value = true)
    (hnb : name ≠ "bindings.default") :
    (YamlConfig.load MIGRATIONS
        ((YamlConfig.fresh.setObj name value none).save fs0 now)).map
      (fun st => st.getObj name) = .ok (some value) := by
  have hsave : (YamlConfig.fresh.setObj name value none).save fs0 now
      = some ⟨.dict [("config_version", .int 2), ("settings",
          .dict (savedSettings (YamlConfig.fresh.setObj name value none)))], now⟩ := rfl
  rw [hsave, savedSettings_setObj_fresh name value hmem]
  have hnamene : ∀ L : String, ("tabs.persist_mode_on_change" = L
      ∨ "content.webrtc_public_interfaces_only" = L) → name ≠ L := by
    intro L hL he
    rcases hL with rfl | rfl
    · rw [he] at hmem
      exact absurd hmem (by decide)
    · rw [he] at hmem
      exact absurd hmem (by decide)
  have hlk : ∀ L : String, name ≠ L →
      dictLookup L [(name, YValue.dict [("global", value)])] = none := by
    intro L hL
    show (if name = L then _ else dictLookup L []) = none
    rw [if_neg hL]
    rfl
  have hbf : ∀ (L : String), (accepts L value = true → isBoolV value = false) →
      ∀ scopes, dictLookup L [(name, YValue.dict [("global", value)])]
        = some (.dict scopes) → ∀ q ∈ scopes, isBoolV q.2 = false := by
    intro L hLbf scopes hsc q hq
    by_cases hX : name = L
    · rw [← hX] at hsc
      rw [show dictLookup name [(name, YValue.dict [("global", value)])]
        = some (.dict [("global", value)]) from by simp [dictLookup]] at hsc
      have hscope : scopes = [("global", value)] := by
        have h2 := Option.some_injective _ hsc
        exact (YValue.dict.inj h2).symm
      rw [hscope] at hq
      rw [List.mem_singleton] at hq
      rw [hq]
      exact hLbf (hX ▸ hacc)
    · rw [hlk L hX] at hsc
      exact Option.noConfusion hsc
  have hm : handleMigrations MIGRATIONS [(name, YValue.dict [("global", value)])]
      = ([(name, YValue.dict [("global", value)])], false) := by
    apply handleMigrations_nobool
    · intro k _
      exact ⟨rfl, rfl⟩
    · exact hlk _ (hnamene _ (Or.inl rfl))
    · exact hlk _ hnb
    · exact hlk _ (hnamene _ (Or.inr rfl))
    · exact hbf _ (fun ha => typeCheck_tStr_not_bool
        (by rw [show accepts "content.webrtc_ip_handling_policy" value
          = typeCheck .tStr value from rfl] at ha; exact ha))
    · exact hbf _ (fun ha => typeCheck_tStr_not_bool
        (by rw [show accepts "tabs.favicons.show" value
          = typeCheck .tStr value from rfl] at ha; exact ha))
    · exact hbf _ (fun ha => typeCheck_tStr_not_bool
        (by rw [show accepts "qt.force_software_rendering" value
          = typeCheck .tStr value from rfl] at ha; exact ha))
  have hknown : ∀ k ∈ dictKeys [(name, YValue.dict [("global", value)])],
      dataNames.contains k = true := by
    intro k hk
    rw [show dictKeys [(name, YValue.dict [("global", value)])] = [name] from rfl] at hk
    rw [List.mem_singleton] at hk
    rw [hk]
    exact List.elem_eq_true_of_mem hmem
  have hdicts : ∀ p ∈ [(name, YValue.dict [("global", value)])],
      ∃ scopes, p.2 = YValue.dict scopes := by
    intro p hp
    rw [List.mem_singleton] at hp
    rw [hp]
    exact ⟨[("global", value)], rfl⟩
  rw [@load_version2 MIGRATIONS
      [("config_version", .int 2), ("settings",
        .dict [(name, YValue.dict [("global", value)])])]
      [(name, YValue.dict [("global", value)])] now rfl rfl,
    finishLoad_eq_ok false hm hknown hdicts]
  obtain ⟨o, ho, honame⟩ := lookupOpt_of_mem hmem
  have hbuild : buildOne [(name, YValue.dict [("global", value)])] (⟨o, []⟩ : Values)
      = buildOptionValues o [("global", value)] := by
    have := @buildOne_split [] [] name [("global", value)] ⟨o, []⟩
      (by simp) (by simp) honame
    simpa using this
  have hget : YamlConfig.getObj
      ⟨builtState [(name, YValue.dict [("global", value)])], false || false⟩ name
      = some value := by
    show (match findVals (builtState [(name, YValue.dict [("global", value)])]) name with
      | some vs => vs.getForUrl none false
      | none => none) = some value
    rw [findVals_builtState, ho]
    show Values.getForUrl (buildOne [(name, YValue.dict [("global", value)])] ⟨o, []⟩)
      none false = some value
    rw [hbuild]
    rfl
  rw [show (Except.ok (⟨builtState [(name, YValue.dict [("global", value)])],
      false || false⟩ : YamlConfig) : Except (List ErrorDesc) YamlConfig).map
      (fun st => st.getObj name)
    = Except.ok (YamlConfig.getObj ⟨builtState [(name, YValue.dict [("global", value)])],
        false || false⟩ name) from rfl]
  rw [hget]

/-- Witness for the claim C1 theorem: tabs.show set to never survives the
save/load round trip. -/
theorem set_save_load_roundtrip_witness :
    (YamlConfig.load MIGRATIONS
        ((YamlConfig.fresh.setObj "tabs.show" (.str "never") none).save none 0)).map
      (fun st => st.getObj "tabs.show") = .ok (some (.str "never")) :=
  set_save_load_roundtrip "tabs.show" (.str "never") none 0 (by decide) rfl (by decide)

/-- Counterexample to claim C1 as stated: bindings.default is a valid option
name and the empty mapping a valid value for it, yet after set_obj, _save
and a fresh load the stored value is gone, because the migration layer drops
bindings.default from autoconfig.yml. -/
theorem set_save_load_roundtrip_counterexample :
    accepts "bindings.default" (.dict []) = true
    ∧ "bindings.default" ∈ dataNames
    ∧ (YamlConfig.load MIGRATIONS
          ((YamlConfig.fresh.setObj "bindings.default" (.dict []) none).save none 0)).map
        (fun st => st.getObj "bindings.default") ≠ .ok (some (.dict [])) := by
  refine ⟨rfl, by decide, ?_⟩
  intro h
  rw [show (YamlConfig.load MIGRATIONS
        ((YamlConfig.fresh.setObj "bindings.default" (.dict []) none).save none 0)).map
      (fun st => st.getObj "bindings.default")
    = Except.ok (none : Option YValue) from rfl] at h
  simp at h

/-- Claim C6 (confirmed): loading settings holding names that are neither
known options nor touched by any migration raises one "While loading
options" error per unknown name, saying "Unknown option name", and exactly
as many errors as unknown names. -/
theorem load_unknown_options_errors (mig : Migrations)
    (tl d : List (String × YValue)) (mt : Nat)
    (hv : dictLookup "config_version" tl = some (.int 2))
    (hs : dictLookup "settings" tl = some (.dict d))
    (hkeys : ∀ k ∈ dictKeys d, benignKey mig k = true)
    (hne : (dictKeys d).filter (fun n => !(dataNames.contains n)) ≠ []) :
    YamlConfig.load mig (some ⟨.dict tl, mt⟩)
        = .error (((dictKeys d).filter (fun n => !(dataNames.contains n))).map
            (fun n => ⟨"While loading options", "Unknown option " ++ n, none⟩))
      ∧ (((dictKeys d).filter (fun n => !(dataNames.contains n))).map
            (fun n => (⟨"While loading options", "Unknown option " ++ n, none⟩
              : ErrorDesc))).length
          = ((dictKeys d).filter (fun n => !(dataNames.contains n))).length := by
  constructor
  · rw [load_version2 hv hs]
    unfold finishLoad
    rw [handleMigrations_benign hkeys]
    rw [if_neg ?_]
    · rfl
    · show ¬ (validate d).isEmpty = true
      unfold validate
      simp only [List.isEmpty_iff, List.map_eq_nil]
      exact hne
  · exact List.length_map _ _

/-- Witness for the claim C6 theorem: two unknown names give two errors. -/
theorem load_unknown_options_errors_witness :
    YamlConfig.load MIGRATIONS
        (some ⟨.dict [("config_version", .int 2), ("settings",
          .dict [("one", .dict [("global", .int 1)]),
                 ("two", .dict [("global", .int 2)])])], 0⟩)
        = .error [⟨"While loading options", "Unknown option one", none⟩,
            ⟨"While loading options", "Unknown option two", none⟩]
      ∧ ([⟨"While loading options", "Unknown option one", none⟩,
          ⟨"While loading options", "Unknown option two", none⟩]
            : List ErrorDesc).length = 2 :=
  load_unknown_options_errors MIGRATIONS
    [("config_version", .int 2), ("settings",
      .dict [("one", .dict [("global", .int 1)]),
             ("two", .dict [("global", .int 2)])])]
    [("one", .dict [("global", .int 1)]), ("two", .dict [("global", .int 2)])]
    0 rfl rfl (by decide) (by decide)

end Qutebrowser
